import Mathlib

/-!
# Verification of the blazediff two-pass perceptual image diff

Shallow embedding of the Rust sources (`src/rust/src/diff.rs`,
`src/rust/src/output.rs`, `src/rust/src/antialiasing.rs`,
`src/packages/bin/rust/src/yiq.rs`) in Lean 4.

Modelling conventions:
* 32-bit RGBA pixels are natural numbers; channels are extracted with
  division and `% 256`, exactly as the Rust code masks and shifts.
* The `f32`/`f64` arithmetic of the sources is modelled by exact rational
  arithmetic (`ℚ`): every floating-point literal of the source is taken at
  its decimal value, multiplications and additions are exact.  Claims about
  operation structure, branch selection, signs and orderings are faithful
  under this model; the one place where rounding *modes* matter (the
  float→integer conversion that produces an output byte) is modelled
  explicitly with truncation and round-to-nearest-even functions.
* Stateful painting into the output buffer is modelled by explicit state
  passing: a `DiffState` carries the output pixel buffer (as a function
  from pixel index to pixel word) together with a ghost trace recording
  every write and which pass issued it.
-/

namespace BlazeDiff

/-- Red channel of a packed RGBA pixel word (`pixel & 0xFF`). -/
def chanR (p : Nat) : Nat := p % 256

/-- Green channel (`(pixel >> 8) & 0xFF`). -/
def chanG (p : Nat) : Nat := p / 256 % 256

/-- Blue channel (`(pixel >> 16) & 0xFF`). -/
def chanB (p : Nat) : Nat := p / 65536 % 256

/-- Alpha channel (`(pixel >> 24) & 0xFF`). -/
def chanA (p : Nat) : Nat := p / 16777216 % 256

/-- `channel_diffs` — steps 2–4 of the scalar metric `color_delta_f32`
(src/rust/src/diff.rs): if both pixels are fully opaque take direct channel
differences, otherwise blend each channel over an opaque white background
via `255 + (c - 255) * a * (1/255)` and difference the blended values. -/
def channel_diffs (pixelA pixelB : Nat) : ℚ × ℚ × ℚ :=
  let r1 : ℚ := chanR pixelA
  let g1 : ℚ := chanG pixelA
  let b1 : ℚ := chanB pixelA
  let a1 : ℚ := chanA pixelA
  let r2 : ℚ := chanR pixelB
  let g2 : ℚ := chanG pixelB
  let b2 : ℚ := chanB pixelB
  let a2 : ℚ := chanA pixelB
  if 255 ≤ a1 ∧ 255 ≤ a2 then
    (r1 - r2, g1 - g2, b1 - b2)
  else
    let inv255 : ℚ := 1 / 255
    let br1 := 255 + (r1 - 255) * a1 * inv255
    let bg1 := 255 + (g1 - 255) * a1 * inv255
    let bb1 := 255 + (b1 - 255) * a1 * inv255
    let br2 := 255 + (r2 - 255) * a2 * inv255
    let bg2 := 255 + (g2 - 255) * a2 * inv255
    let bb2 := 255 + (b2 - 255) * a2 * inv255
    (br1 - br2, bg1 - bg2, bb1 - bb2)

/-- `Y` component: coefficients `YIQ_Y_F32 = [0.29889531, 0.58662247, 0.11448223]`. -/
def yiq_y (dr dg db : ℚ) : ℚ :=
  dr * 0.29889531 + dg * 0.58662247 + db * 0.11448223

/-- `I` component: coefficients `YIQ_I_F32 = [0.59597799, -0.2741761, -0.32180189]`. -/
def yiq_i (dr dg db : ℚ) : ℚ :=
  dr * 0.59597799 + dg * (-0.2741761) + db * (-0.32180189)

/-- `Q` component: coefficients `YIQ_Q_F32 = [0.21147017, -0.52261711, 0.31114694]`. -/
def yiq_q (dr dg db : ℚ) : ℚ :=
  dr * 0.21147017 + dg * (-0.52261711) + db * 0.31114694

/-- Weighted squared magnitude, weights `YIQ_WEIGHTS_F32 = [0.5053, 0.299, 0.1957]`. -/
def yiq_mag (dr dg db : ℚ) : ℚ :=
  0.5053 * yiq_y dr dg db * yiq_y dr dg db +
    0.299 * yiq_i dr dg db * yiq_i dr dg db +
    0.1957 * yiq_q dr dg db * yiq_q dr dg db

/-- Exact-rational model of the scalar pixel metric `color_delta_f32`
(src/rust/src/diff.rs, lines 594–634): zero on identical packed words,
channel differences per `channel_diffs`, YIQ transform, weighted squared
magnitude, negated when `Y > 0`. -/
def color_delta_f32 (pixelA pixelB : Nat) : ℚ :=
  if pixelA = pixelB then 0
  else
    let d := channel_diffs pixelA pixelB
    let y := yiq_y d.1 d.2.1 d.2.2
    let delta := yiq_mag d.1 d.2.1 d.2.2
    if 0 < y then -delta else delta

/-- The reference pixel metric exactly as claim C2 (spec §4.2) words it:
return 0 when the packed words are equal; when both alphas are 255 use
direct channel differences; otherwise blend each pixel over an opaque white
background via `c' = 255 + (c−255)·a/255` before differencing; compute
`Y`, `I`, `Q` with the stated coefficients, form
`magnitude = 0.5053·Y² + 0.299·I² + 0.1957·Q²`, and return the magnitude
with a negative sign exactly when `Y > 0`. -/
def spec_color_delta (pixelA pixelB : Nat) : ℚ :=
  if pixelA = pixelB then 0
  else
    let r1 : ℚ := chanR pixelA
    let g1 : ℚ := chanG pixelA
    let b1 : ℚ := chanB pixelA
    let a1 : ℚ := chanA pixelA
    let r2 : ℚ := chanR pixelB
    let g2 : ℚ := chanG pixelB
    let b2 : ℚ := chanB pixelB
    let a2 : ℚ := chanA pixelB
    let dr : ℚ := if a1 = 255 ∧ a2 = 255 then r1 - r2
      else (255 + (r1 - 255) * a1 / 255) - (255 + (r2 - 255) * a2 / 255)
    let dg : ℚ := if a1 = 255 ∧ a2 = 255 then g1 - g2
      else (255 + (g1 - 255) * a1 / 255) - (255 + (g2 - 255) * a2 / 255)
    let db : ℚ := if a1 = 255 ∧ a2 = 255 then b1 - b2
      else (255 + (b1 - 255) * a1 / 255) - (255 + (b2 - 255) * a2 / 255)
    let y : ℚ := dr * 0.29889531 + dg * 0.58662247 + db * 0.11448223
    let i : ℚ := dr * 0.59597799 - dg * 0.2741761 - db * 0.32180189
    let q : ℚ := dr * 0.21147017 - dg * 0.52261711 + db * 0.31114694
    let magnitude : ℚ := 0.5053 * y ^ 2 + 0.299 * i ^ 2 + 0.1957 * q ^ 2
    if 0 < y then -magnitude else magnitude

/-- Per-lane value of the cold-pass SIMD deltas `yiq_delta_4_neon_direct`,
`yiq_delta_4_sse_direct` and `yiq_delta_8_avx2_direct`
(src/rust/src/diff.rs, lines 352–586).  Each lane is independent; all three
ISA variants compute, for its pair of pixels: normalise each alpha by
`1/255`, blend every channel over white via `255 + (c - 255) * (a/255)`
(fused or separate multiply-add — identical in exact arithmetic),
difference, transform to YIQ and return the unsigned weighted squared
magnitude.  No equality short-circuit, no sign. -/
def yiq_delta_direct_lane (pixelA pixelB : Nat) : ℚ :=
  let r1 : ℚ := chanR pixelA
  let g1 : ℚ := chanG pixelA
  let b1 : ℚ := chanB pixelA
  let a1 : ℚ := chanA pixelA
  let r2 : ℚ := chanR pixelB
  let g2 : ℚ := chanG pixelB
  let b2 : ℚ := chanB pixelB
  let a2 : ℚ := chanA pixelB
  let inv255 : ℚ := 1 / 255
  let alphaNormA := a1 * inv255
  let alphaNormB := a2 * inv255
  let br1 := 255 + (r1 - 255) * alphaNormA
  let bg1 := 255 + (g1 - 255) * alphaNormA
  let bb1 := 255 + (b1 - 255) * alphaNormA
  let br2 := 255 + (r2 - 255) * alphaNormB
  let bg2 := 255 + (g2 - 255) * alphaNormB
  let bb2 := 255 + (b2 - 255) * alphaNormB
  yiq_mag (br1 - br2) (bg1 - bg2) (bb1 - bb2)

/-- The cold-pass lane delta as claim C3 (spec §4.5 step 3) describes it:
the YIQ magnitude obtained by treating both pixels as fully opaque — raw
channel differences, no blend over a background. -/
def spec_yiq_delta_opaque (pixelA pixelB : Nat) : ℚ :=
  let dr : ℚ := (chanR pixelA : ℚ) - (chanR pixelB : ℚ)
  let dg : ℚ := (chanG pixelA : ℚ) - (chanG pixelB : ℚ)
  let db : ℚ := (chanB pixelA : ℚ) - (chanB pixelB : ℚ)
  yiq_mag dr dg db

/-- `PHI` golden-ratio constant of src/packages/bin/rust/src/yiq.rs (the
`f64` literal taken at its decimal value). -/
def PHI : ℚ := 1.618033988749895

/-- `PHI2` constant of src/packages/bin/rust/src/yiq.rs. -/
def PHI2 : ℚ := 2.618033988749895

/-- Red channel of the procedural checkerboard background,
`48.0 + 159.0 * ((pixel_index % 2) as f64)`. -/
def checker_rb (pixelIndex : Nat) : ℚ := 48 + 159 * ((pixelIndex % 2 : Nat) : ℚ)

/-- Green channel of the checkerboard background,
`48.0 + 159.0 * ((((pixel_index as f64) / PHI) as usize & 1) as f64)`;
the `f64 → usize` cast truncates, i.e. floors the nonnegative quotient. -/
def checker_gb (pixelIndex : Nat) : ℚ :=
  48 + 159 * ((((pixelIndex : ℚ) / PHI).floor.toNat % 2 : Nat) : ℚ)

/-- Blue channel of the checkerboard background (same with `PHI2`). -/
def checker_bb (pixelIndex : Nat) : ℚ :=
  48 + 159 * ((((pixelIndex : ℚ) / PHI2).floor.toNat % 2 : Nat) : ℚ)

/-- Exact-rational model of `color_delta`
(src/packages/bin/rust/src/yiq.rs, lines 52–99): raw channel differences,
early zero return when all four differ by 0; when either alpha is below
255, replace the color differences by the legacy blended formulation
`(c1·a1 − c2·a2 − cb·da) / 255` with the procedural checkerboard
background channels; then the YIQ pipeline, returning `Y` alone when
`y_only`. -/
def bin_color_delta (pixelA pixelB pixelIndex : Nat) (yOnly : Bool) : ℚ :=
  let r1 : ℚ := chanR pixelA
  let g1 : ℚ := chanG pixelA
  let b1 : ℚ := chanB pixelA
  let a1 : ℚ := chanA pixelA
  let r2 : ℚ := chanR pixelB
  let g2 : ℚ := chanG pixelB
  let b2 : ℚ := chanB pixelB
  let a2 : ℚ := chanA pixelB
  let dr0 := r1 - r2
  let dg0 := g1 - g2
  let db0 := b1 - b2
  let da := a1 - a2
  if dr0 = 0 ∧ dg0 = 0 ∧ db0 = 0 ∧ da = 0 then 0
  else
    let blended := chanA pixelA < 255 ∨ chanA pixelB < 255
    let dr := if blended then (r1 * a1 - r2 * a2 - checker_rb pixelIndex * da) / 255 else dr0
    let dg := if blended then (g1 * a1 - g2 * a2 - checker_gb pixelIndex * da) / 255 else dg0
    let db := if blended then (b1 * a1 - b2 * a2 - checker_bb pixelIndex * da) / 255 else db0
    let y := yiq_y dr dg db
    if yOnly then y
    else
      let delta := yiq_mag dr dg db
      if 0 < y then -delta else delta

/-- The luminance-only delta as claim C9 words it: the legacy formulation
`((c1·a1 − c2·a2 − cb·(a1−a2))/255)` with background channel `cb = 255`
on every channel (blending over an opaque white background), independent
of the pixel's position. -/
def spec_white_delta_y (pixelA pixelB : Nat) : ℚ :=
  let r1 : ℚ := chanR pixelA
  let g1 : ℚ := chanG pixelA
  let b1 : ℚ := chanB pixelA
  let a1 : ℚ := chanA pixelA
  let r2 : ℚ := chanR pixelB
  let g2 : ℚ := chanG pixelB
  let b2 : ℚ := chanB pixelB
  let a2 : ℚ := chanA pixelB
  let da := a1 - a2
  if r1 - r2 = 0 ∧ g1 - g2 = 0 ∧ b1 - b2 = 0 ∧ da = 0 then 0
  else
    let blended := chanA pixelA < 255 ∨ chanA pixelB < 255
    let dr := if blended then (r1 * a1 - r2 * a2 - 255 * da) / 255 else r1 - r2
    let dg := if blended then (g1 * a1 - g2 * a2 - 255 * da) / 255 else g1 - g2
    let db := if blended then (b1 * a1 - b2 * a2 - 255 * da) / 255 else b1 - b2
    yiq_y dr dg db

/-- Blending one channel value `c` with alpha `a` over a background
channel `cb`: `(c·a + cb·(255 − a)) / 255`. -/
def blend_over (c a cb : ℚ) : ℚ := (c * a + cb * (255 - a)) / 255

/-- Modelled from the spec: the luminance-only pixel delta of the core
crate's `yiq` module (`color_delta` with `y_only = true`, called by
`is_antialiased` in src/rust/src/antialiasing.rs; the file
src/rust/src/yiq.rs itself is not present in the tree).  Spec §4.2: steps
1–5 — zero on identical packed words, direct channel differences when both
pixels are opaque, otherwise blending over an opaque white background,
then return `Y`.  The spec's formulation does not use the pixel index that
the call site passes. -/
def color_delta_y (pixelA pixelB : Nat) : ℚ :=
  if pixelA = pixelB then 0
  else
    let d := channel_diffs pixelA pixelB
    yiq_y d.1 d.2.1 d.2.2

/-- Modelled from the spec: `threshold_to_max_delta_f32` of the core
crate's `yiq` module (file not in the tree); identical formula to
`threshold_to_max_delta` in src/packages/bin/rust/src/yiq.rs, lines
161–164: `MAX_YIQ_DELTA * threshold * threshold` with
`MAX_YIQ_DELTA = 35215`. -/
def threshold_to_max_delta (threshold : ℚ) : ℚ := 35215 * threshold * threshold

/-- Exact-rational model of the scalar desaturation `compute_gray_f32_fast`
(src/rust/src/output.rs, lines 404–414) — the identical formula also
appears as `compute_gray_pixel_f32` in src/rust/src/diff.rs, lines
1931–1942: luminance with the Y coefficients, whitening by
`alpha_scaled * a`, clamp to `[0, 255]`, and the Rust `as u8` conversion,
which truncates toward zero (equal to the floor of the clamped
nonnegative value). -/
def compute_gray_f32_fast (pixel : Nat) (alphaScaled : ℚ) : Nat :=
  let r : ℚ := chanR pixel
  let g : ℚ := chanG pixel
  let b : ℚ := chanB pixel
  let a : ℚ := chanA pixel
  let luminance := r * 0.29889531 + g * 0.58662247 + b * 0.11448223
  let gray := 255 + (luminance - 255) * alphaScaled * a
  (max 0 (min gray 255)).floor.toNat

/-- Round to nearest, ties to even — the conversion performed by the x86
`cvtps2dq` instruction (`_mm_cvtps_epi32` / `_mm256_cvtps_epi32`) in the
default MXCSR rounding mode. -/
def round_half_even (q : ℚ) : ℤ :=
  if q - q.floor < 1 / 2 then q.floor
  else if 1 / 2 < q - q.floor then q.floor + 1
  else if q.floor % 2 = 0 then q.floor else q.floor + 1

/-- Per-lane gray byte of `fill_row_gray_sse4` (src/rust/src/output.rs,
lines 296–338): same luminance/whitening formula and the same clamp
(`min(max(gray, 0), 255)`), but the float→integer conversion is
`_mm_cvtps_epi32`, which rounds to nearest even instead of truncating. -/
def fill_row_gray_sse4_lane (pixel : Nat) (alphaScaled : ℚ) : Nat :=
  let r : ℚ := chanR pixel
  let g : ℚ := chanG pixel
  let b : ℚ := chanB pixel
  let a : ℚ := chanA pixel
  let luminance := r * 0.29889531 + g * 0.58662247 + b * 0.11448223
  let gray := 255 + (luminance - 255) * (alphaScaled * a)
  (round_half_even (min (max gray 0) 255)).toNat

/-- Per-lane gray byte of `compute_gray_8_avx2` (src/rust/src/diff.rs,
lines 1217–1251): fused multiply-adds (identical in exact arithmetic) and
the rounding `_mm256_cvtps_epi32` conversion. -/
def compute_gray_8_avx2_lane (pixel : Nat) (alphaScaled : ℚ) : Nat :=
  let r : ℚ := chanR pixel
  let g : ℚ := chanG pixel
  let b : ℚ := chanB pixel
  let a : ℚ := chanA pixel
  let luminance := r * 0.29889531 + (g * 0.58662247 + b * 0.11448223)
  let gray := (luminance - 255) * (alphaScaled * a) + 255
  (round_half_even (min (max gray 0) 255)).toNat

/-! ## Images and the anti-aliasing classifier -/

/-- An RGBA8 raster viewed as 32-bit pixel words (`Image::as_u32`):
row-major, the word at index `y * width + x` holds pixel `(x, y)`. -/
structure Image where
  width : Nat
  height : Nat
  data : Nat → Nat

/-- The row-major list of coordinates of the 3×3 window
`[x0, x1] × [y0, y1]` with the center `(x, y)` removed — the iteration
order of the `for ny … for nx …` loops in src/rust/src/antialiasing.rs. -/
def neighbor_coords (x y x0 y0 x1 y1 : Nat) : List (Nat × Nat) :=
  (((List.range (y1 + 1 - y0)).map fun dy =>
      (List.range (x1 + 1 - x0)).map fun dx => (x0 + dx, y0 + dy)).flatten).filter
    fun p => !(p.1 == x && p.2 == y)

/-- `has_many_siblings` (src/rust/src/antialiasing.rs): does pixel `(x,y)`
have more than two identical neighbors in its 3×3 window?  Boundary pixels
seed the count at 1 and use the bounds-checked scalar walk; interior
pixels count all eight neighbors starting from 0 (the NEON/SSE4.1/scalar
interior paths all compute this). -/
def has_many_siblings (data : Nat → Nat) (x y width height : Nat) : Bool :=
  let pos := y * width + x
  let val := data pos
  let x0 := x - 1
  let y0 := y - 1
  let x1 := min (x + 1) (width - 1)
  let y1 := min (y + 1) (height - 1)
  let onBoundary := x == 0 || x == width - 1 || y == 0 || y == height - 1
  let initialCount := if onBoundary then 1 else 0
  let count := initialCount +
    ((neighbor_coords x y x0 y0 x1 y1).filter
      fun p => data (p.2 * width + p.1) == val).length
  2 < count

/-- Loop state of the neighbor scan in `is_antialiased`: the
identical-sibling counter, the tracked extreme luminance deltas with their
coordinates, and whether the scan already returned false (more than two
identical siblings). -/
structure AAState where
  zeroes : Nat
  minDelta : ℚ
  maxDelta : ℚ
  minX : Nat
  minY : Nat
  maxX : Nat
  maxY : Nat
  bailed : Bool

/-- One neighbor step of the `is_antialiased` scan
(src/rust/src/antialiasing.rs, lines 223–253): equal neighbors bump
`zeroes` (bailing out above 2); others update the most-negative or
most-positive luminance-only delta seen so far. -/
def aa_step (data : Nat → Nat) (width center : Nat) (st : AAState)
    (p : Nat × Nat) : AAState :=
  if st.bailed then st
  else
    let adj := data (p.2 * width + p.1)
    if adj = center then
      { st with zeroes := st.zeroes + 1, bailed := 2 < st.zeroes + 1 }
    else
      let delta := color_delta_y center adj
      if delta < st.minDelta then
        { st with minDelta := delta, minX := p.1, minY := p.2 }
      else if st.maxDelta < delta then
        { st with maxDelta := delta, maxX := p.1, maxY := p.2 }
      else st

/-- `is_antialiased` (src/rust/src/antialiasing.rs, lines 192–267):
scan the up-to-8 neighbors of `(x, y)` in `image1`; solid regions (more
than two identical siblings, seeded at 1 on the boundary) and windows
without a bidirectional luminance gradient are not anti-aliased; otherwise
the darkest and brightest neighbors must sit in a solid region of both
images. -/
def is_antialiased (image1 image2 : Image) (x y : Nat) : Bool :=
  let a := image1.data
  let b := image2.data
  let width := image1.width
  let height := image1.height
  let x0 := x - 1
  let y0 := y - 1
  let x1 := min (x + 1) (width - 1)
  let y1 := min (y + 1) (height - 1)
  let pos := y * width + x
  let centerPixel := a pos
  let zeroes0 : Nat := if x == x0 || x == x1 || y == y0 || y == y1 then 1 else 0
  let st0 : AAState := ⟨zeroes0, 0, 0, 0, 0, 0, 0, false⟩
  let st := (neighbor_coords x y x0 y0 x1 y1).foldl (aa_step a width centerPixel) st0
  if st.bailed then false
  else if st.minDelta = 0 ∨ st.maxDelta = 0 then false
  else
    (has_many_siblings a st.minX st.minY width height &&
      has_many_siblings b st.minX st.minY width height) ||
    (has_many_siblings a st.maxX st.maxY width height &&
      has_many_siblings b st.maxX st.maxY width height)

/-! ## Output painting state -/

/-- Which pass performed a write: the `diff_mask` transparent clear, the
cold-pass gray block fill of block `b`, or the hot-pass painter inside
changed block `b`. -/
inductive WriteSrc
  | clear : WriteSrc
  | cold (b : Nat) : WriteSrc
  | hot (b : Nat) : WriteSrc
deriving DecidableEq, BEq

/-- Output buffer (pixel index → pixel word) plus a ghost trace of every
write performed, newest first. -/
structure DiffState where
  out : Nat → Nat
  trace : List (Nat × WriteSrc)

/-- Write pixel word `v` at pixel index `i`, recording the write. -/
def DiffState.write (s : DiffState) (i v : Nat) (src : WriteSrc) : DiffState :=
  ⟨fun j => if j = i then v else s.out j, (i, src) :: s.trace⟩

/-- Number of trace entries at pixel index `i` whose source satisfies `P`. -/
def tracedCount (P : WriteSrc → Bool) (i : Nat) (tr : List (Nat × WriteSrc)) : Nat :=
  (tr.filter fun e => e.1 == i && P e.2).length

/-- All writes at pixel index `i`. -/
def writesTo (i : Nat) (tr : List (Nat × WriteSrc)) : Nat :=
  tracedCount (fun _ => true) i tr

/-- Writes at pixel index `i` issued by a cold-fill or hot-pass block
(everything except the transparent clear). -/
def blockWritesTo (i : Nat) (tr : List (Nat × WriteSrc)) : Nat :=
  tracedCount (fun src => !(src == WriteSrc.clear)) i tr

/-- Row-major fold over the pixel rectangle `[sx, ex) × [sy, ey)` — the
`for y in start_y..end_y { for x in start_x..end_x { … } }` loop shape
shared by the scalar block routines. -/
def rectFold {σ : Type} (sx sy ex ey : Nat) (f : Nat → Nat → σ → σ) (s : σ) : σ :=
  (List.range (ey - sy)).foldl
    (fun s dy => (List.range (ex - sx)).foldl
      (fun s dx => f (sx + dx) (sy + dy) s) s) s

/-- `pack_gray_pixel` (src/rust/src/diff.rs) / `pack_gray_u32`
(src/rust/src/output.rs): gray byte replicated into R, G, B with opaque
alpha. -/
def pack_gray_pixel (gray : Nat) : Nat :=
  gray ||| (gray <<< 8) ||| (gray <<< 16) ||| 0xFF000000

/-- `pack_color_pixel` (src/rust/src/diff.rs): RGB triple with opaque
alpha. -/
def pack_color_pixel (color : Nat × Nat × Nat) : Nat :=
  color.1 ||| (color.2.1 <<< 8) ||| (color.2.2 <<< 16) ||| 0xFF000000

/-- `fill_block_gray_optimized` (src/rust/src/output.rs, lines 87–120),
modelled by its scalar path `fill_block_gray_scalar` (the SIMD paths
compute the same formula lane-wise): desaturate every pixel of the block,
with `alpha_scaled = alpha / 255`. -/
def fill_block_gray (source : Image) (alpha : ℚ) (blockId : Nat)
    (sx sy ex ey : Nat) (s : DiffState) : DiffState :=
  rectFold sx sy ex ey
    (fun x y s =>
      let idx := y * source.width + x
      s.write idx
        (pack_gray_pixel (compute_gray_f32_fast (source.data idx) (alpha * (1 / 255))))
        (WriteSrc.cold blockId))
    s

/-- `clear_transparent` (src/rust/src/output.rs, lines 421–423): zero the
whole output buffer, i.e. write the all-zero pixel at every index. -/
def clear_transparent (totalPixels : Nat) (s : DiffState) : DiffState :=
  (List.range totalPixels).foldl (fun s i => s.write i 0 WriteSrc.clear) s

/-! ## Cold pass, hot pass and the diff driver -/

/-- `block_has_perceptual_diff_scalar` (src/rust/src/diff.rs, lines
322–343): does the block `[startX, endX) × [startY, endY)` contain a pixel
whose packed words differ and whose alpha-aware delta magnitude exceeds
`max_delta`?  The NEON/AVX2/SSE block scanners decide the same predicate
lane-wise (their lane delta is the alpha-blended magnitude, see
`yiq_delta_direct_lane`), so the scalar routine is the reference. -/
def block_has_perceptual_diff_scalar (img1 img2 : Image) (startX startY endX endY : Nat)
    (maxDelta : ℚ) : Bool :=
  (List.range (endY - startY)).any fun dy =>
    (List.range (endX - startX)).any fun dx =>
      let idx := (startY + dy) * img1.width + (startX + dx)
      let pa := img1.data idx
      let pb := img2.data idx
      pa != pb && decide (maxDelta < |color_delta_f32 pa pb|)

/-- Context threaded through the hot pass: images, whether an output
buffer exists, parameters from the options record, and the identifier of
the block being processed (for the ghost trace). -/
structure HotArgs where
  img1 : Image
  img2 : Image
  hasOut : Bool
  width : Nat
  maxDelta : ℚ
  includeAA : Bool
  drawBackground : Bool
  diffColor : Nat
  diffColorAlt : Nat
  aaColor : Nat
  alphaScaled : ℚ
  blockId : Nat

/-- The gray write both identical-pixel and sub-threshold branches of the
hot pass perform when background drawing is on and an output buffer
exists. -/
def hot_gray (A : HotArgs) (pixelIndex pa : Nat) (s : DiffState) : DiffState :=
  if A.drawBackground then
    if A.hasOut then
      s.write pixelIndex
        (pack_gray_pixel (compute_gray_f32_fast pa A.alphaScaled))
        (WriteSrc.hot A.blockId)
    else s
  else s

/-- `process_diff_pixel` (src/rust/src/diff.rs, lines 1736–1780): paint
and count one differing pixel whose delta magnitude exceeded the
threshold.  With `include_aa` the pixel is painted with the diff marker
(the alternate color when the delta is negative) and counted; otherwise
the AA classifier runs in both directions, AA pixels get the AA marker and
count 0, the rest get the diff marker and count 1.  Marker writes happen
whenever an output buffer exists, regardless of `draw_background`. -/
def process_diff_pixel (A : HotArgs) (pixelIndex : Nat) (delta : ℚ)
    (x y : Nat) (s : DiffState) : Nat × DiffState :=
  let markerColor := if delta < 0 then A.diffColorAlt else A.diffColor
  if A.includeAA then
    (1, if A.hasOut then s.write pixelIndex markerColor (WriteSrc.hot A.blockId) else s)
  else
    if is_antialiased A.img1 A.img2 x y || is_antialiased A.img2 A.img1 x y then
      (0, if A.hasOut then s.write pixelIndex A.aaColor (WriteSrc.hot A.blockId) else s)
    else
      (1, if A.hasOut then s.write pixelIndex markerColor (WriteSrc.hot A.blockId) else s)

/-- Per-pixel body of `process_hot_block_scalar` (src/rust/src/diff.rs,
lines 1670–1733): identical pixels are desaturated (background mode),
pixels whose delta magnitude exceeds the threshold go through
`process_diff_pixel`, the rest are desaturated. -/
def hot_pixel (A : HotArgs) (x y : Nat) (cs : Nat × DiffState) : Nat × DiffState :=
  let pixelIndex := y * A.width + x
  let pa := A.img1.data pixelIndex
  let pb := A.img2.data pixelIndex
  if pa = pb then
    (cs.1, hot_gray A pixelIndex pa cs.2)
  else
    let delta := color_delta_f32 pa pb
    if A.maxDelta < |delta| then
      let r := process_diff_pixel A pixelIndex delta x y cs.2
      (cs.1 + r.1, r.2)
    else
      (cs.1, hot_gray A pixelIndex pa cs.2)

/-- `process_hot_block_scalar` (src/rust/src/diff.rs, lines 1670–1733):
walk the changed block in raster order, returning the block's diff count
and the updated output state.  (The NEON/AVX2/SSE hot paths batch the same
per-pixel decisions; in exact arithmetic their lane deltas equal the
scalar ones, so the scalar routine is the reference.) -/
def process_hot_block_scalar (A : HotArgs) (startX startY endX endY : Nat)
    (s : DiffState) : Nat × DiffState :=
  rectFold startX startY endX endY (hot_pixel A) (0, s)

/-- `DiffOptions` (src/rust/src/types.rs) — the fields the core diff
reads.  `threshold` and `alpha` are the `f64` options modelled as exact
rationals. -/
structure DiffOptions where
  threshold : ℚ
  includeAA : Bool
  alpha : ℚ
  aaColor : Nat × Nat × Nat
  diffColor : Nat × Nat × Nat
  diffColorAlt : Option (Nat × Nat × Nat)
  diffMask : Bool

/-- `DiffResult` (src/rust/src/types.rs). -/
structure DiffResult where
  diffCount : Nat
  diffPercentage : ℚ
  identical : Bool
deriving DecidableEq

/-- `DiffResult::new`: percentage is `100 · count / total` (0 when the
image is empty), `identical ⇔ count = 0`. -/
def DiffResult.new (diffCount totalPixels : Nat) : DiffResult :=
  { diffCount := diffCount,
    diffPercentage :=
      if 0 < totalPixels then 100 * (diffCount : ℚ) / (totalPixels : ℚ) else 0,
    identical := diffCount == 0 }

/-- `DiffError` (src/rust/src/types.rs) — the only failure the core diff
itself produces. -/
inductive DiffError
  | sizeMismatch (img1Width img1Height img2Width img2Height : Nat) : DiffError
deriving DecidableEq

/-- Cold pass of `diff` (src/rust/src/diff.rs, lines 1842–1869): visit
every block in raster order; changed blocks are recorded (with bounds and
a block identifier), unchanged blocks are gray-filled when an output
buffer exists and `diff_mask` is off. -/
def cold_pass (img1 img2 : Image) (hasOut diffMask : Bool) (alpha maxDelta : ℚ)
    (blockSize blocksX blocksY : Nat) (s : DiffState) :
    List (Nat × Nat × Nat × Nat × Nat) × DiffState :=
  (List.range blocksY).foldl
    (fun acc byIdx =>
      (List.range blocksX).foldl
        (fun acc bxIdx =>
          let startX := bxIdx * blockSize
          let startY := byIdx * blockSize
          let endX := min (startX + blockSize) img1.width
          let endY := min (startY + blockSize) img1.height
          let blockId := byIdx * blocksX + bxIdx
          if block_has_perceptual_diff_scalar img1 img2 startX startY endX endY maxDelta then
            (acc.1 ++ [(startX, startY, endX, endY, blockId)], acc.2)
          else if hasOut && !diffMask then
            (acc.1, fill_block_gray img1 alpha blockId startX startY endX endY acc.2)
          else acc)
        acc)
    ([], s)

/-- Hot pass of `diff` (src/rust/src/diff.rs, lines 1875–1926): process
each recorded changed block and sum the per-block diff counts. -/
def hot_pass (A : HotArgs) (blocks : List (Nat × Nat × Nat × Nat × Nat))
    (s : DiffState) : Nat × DiffState :=
  blocks.foldl
    (fun cs blk =>
      let r := process_hot_block_scalar { A with blockId := blk.2.2.2.2 }
        blk.1 blk.2.1 blk.2.2.1 blk.2.2.2.1 cs.2
      (cs.1 + r.1, r.2))
    (0, s)

/-- The hot-pass context assembled by the driver from the options
(src/rust/src/diff.rs, lines 1820–1832). -/
def hot_args (img1 img2 : Image) (hasOut : Bool) (options : DiffOptions) : HotArgs :=
  { img1 := img1
    img2 := img2
    hasOut := hasOut
    width := img1.width
    maxDelta := threshold_to_max_delta options.threshold
    includeAA := options.includeAA
    drawBackground := hasOut && !options.diffMask
    diffColor := pack_color_pixel options.diffColor
    diffColorAlt := pack_color_pixel (options.diffColorAlt.getD options.diffColor)
    aaColor := pack_color_pixel options.aaColor
    alphaScaled := options.alpha * (1 / 255)
    blockId := 0 }

/-- The diff driver `diff` (src/rust/src/diff.rs, lines 1781–1929).
Differences from the Rust signature forced by the shallow embedding:
* the optional `&mut Image` output is the flag `hasOut` plus the initial
  buffer contents `out0`, and the final buffer (with its ghost write
  trace) is returned alongside the result;
* the runtime pointer-equality test `image1.data.as_ptr() ==
  image2.data.as_ptr()` is the flag `aliased` (meaningful only when the
  two data functions are equal);
* `calculate_block_size` computes its power-of-two in `[8, 128]` with
  `f64` `sqrt`/`log2`/`round`, which a rational model cannot imitate
  exactly, so the chosen block size is the parameter `blockSize` and the
  theorems below hold for every positive value. -/
def diff (img1 img2 : Image) (hasOut : Bool) (out0 : Nat → Nat)
    (options : DiffOptions) (aliased : Bool) (blockSize : Nat) :
    Except DiffError DiffResult × DiffState :=
  if img1.width ≠ img2.width ∨ img1.height ≠ img2.height then
    (Except.error (DiffError.sizeMismatch img1.width img1.height img2.width img2.height),
      ⟨out0, []⟩)
  else
    let width := img1.width
    let height := img1.height
    let totalPixels := width * height
    let s0 : DiffState := ⟨out0, []⟩
    let s1 := if hasOut && options.diffMask then clear_transparent totalPixels s0 else s0
    if aliased then
      let s2 := if hasOut && !options.diffMask then
        fill_block_gray img1 options.alpha 0 0 0 width height s1 else s1
      (Except.ok (DiffResult.new 0 totalPixels), s2)
    else
      let blocksX := (width + blockSize - 1) / blockSize
      let blocksY := (height + blockSize - 1) / blockSize
      let maxDelta := threshold_to_max_delta options.threshold
      let A : HotArgs := hot_args img1 img2 hasOut options
      let cold := cold_pass img1 img2 hasOut options.diffMask options.alpha maxDelta
        blockSize blocksX blocksY s1
      if cold.1.isEmpty then
        (Except.ok (DiffResult.new 0 totalPixels), cold.2)
      else
        let hot := hot_pass A cold.1 cold.2
        (Except.ok (DiffResult.new hot.1 totalPixels), hot.2)

/-- The whole-image single-pass per-pixel scan that claim C1 compares the
tiled diff against: count every pixel whose packed words differ, whose
alpha-aware delta magnitude exceeds the threshold's `max_delta`, and which
the (bidirectional) AA classifier does not discard when `include_aa` is
off. -/
def scan_diff_count (img1 img2 : Image) (options : DiffOptions) : Nat :=
  ((List.range img1.height).map fun y =>
    ((List.range img1.width).map fun x =>
      let i := y * img1.width + x
      let pa := img1.data i
      let pb := img2.data i
      if pa ≠ pb ∧ threshold_to_max_delta options.threshold < |color_delta_f32 pa pb| ∧
          (options.includeAA = true ∨
            ¬(is_antialiased img1 img2 x y = true ∨ is_antialiased img2 img1 x y = true))
        then 1 else 0).sum).sum

/-- Diff count of a driver run (0 on the error path, which never carries a
count). -/
def diffCountOf (r : Except DiffError DiffResult × DiffState) : Nat :=
  match r.1 with
  | Except.ok res => res.diffCount
  | Except.error _ => 0

/-- Identical flag of a driver run (false on the error path). -/
def identicalOf (r : Except DiffError DiffResult × DiffState) : Bool :=
  match r.1 with
  | Except.ok res => res.identical
  | Except.error _ => false

/-! ## Derived views of the hot pass and the block grid (proof plumbing) -/

/-- Does the hot pass write the output at pixel `(x, y)`?  Read off the
branches of `hot_pixel`: identical and sub-threshold pixels write only in
background mode; exceeding pixels write whenever an output exists. -/
def hot_do_write (A : HotArgs) (x y : Nat) : Bool :=
  let i := y * A.width + x
  let pa := A.img1.data i
  let pb := A.img2.data i
  if pa = pb then A.drawBackground && A.hasOut
  else if A.maxDelta < |color_delta_f32 pa pb| then A.hasOut
  else A.drawBackground && A.hasOut

/-- The pixel word the hot pass writes at `(x, y)` (meaningful when
`hot_do_write` holds). -/
def hot_val (A : HotArgs) (x y : Nat) : Nat :=
  let i := y * A.width + x
  let pa := A.img1.data i
  let pb := A.img2.data i
  let gray := pack_gray_pixel (compute_gray_f32_fast pa A.alphaScaled)
  if pa = pb then gray
  else
    let delta := color_delta_f32 pa pb
    let marker := if delta < 0 then A.diffColorAlt else A.diffColor
    if A.maxDelta < |delta| then
      if A.includeAA then marker
      else if is_antialiased A.img1 A.img2 x y || is_antialiased A.img2 A.img1 x y then
        A.aaColor
      else marker
    else gray

/-- The contribution of pixel `(x, y)` to the hot-pass diff count. -/
def hot_cnt (A : HotArgs) (x y : Nat) : Nat :=
  let i := y * A.width + x
  let pa := A.img1.data i
  let pb := A.img2.data i
  if pa = pb then 0
  else if A.maxDelta < |color_delta_f32 pa pb| then
    if A.includeAA then 1
    else if is_antialiased A.img1 A.img2 x y || is_antialiased A.img2 A.img1 x y then 0
    else 1
  else 0

/-- One conditional write into the output, at the row-major index of
`(x, y)` — the state effect every pixel visit of a block pass has. -/
def paint_step (W : Nat) (doW : Nat → Nat → Bool) (v : Nat → Nat → Nat)
    (src : WriteSrc) (x y : Nat) (s : DiffState) : DiffState :=
  if doW x y then s.write (y * W + x) (v x y) src else s

/-- A whole rectangle of conditional writes. -/
def paint_rect (W sx sy ex ey : Nat) (doW : Nat → Nat → Bool)
    (v : Nat → Nat → Nat) (src : WriteSrc) (s : DiffState) : DiffState :=
  rectFold sx sy ex ey (paint_step W doW v src) s

/-- The raster-order list of blocks the cold pass visits, with bounds and
block identifier. -/
def block_list (W H blockSize blocksX blocksY : Nat) :
    List (Nat × Nat × Nat × Nat × Nat) :=
  ((List.range blocksY).map fun byIdx =>
    (List.range blocksX).map fun bxIdx =>
      (bxIdx * blockSize, byIdx * blockSize,
        min (bxIdx * blockSize + blockSize) W,
        min (byIdx * blockSize + blockSize) H,
        byIdx * blocksX + bxIdx)).flatten

/-- Does pixel index `i` hold a counted-able difference: packed words
differ and the delta magnitude exceeds the threshold?  (This is exactly
the per-pixel predicate of the cold-pass block scan.) -/
def exceeds_at (img1 img2 : Image) (maxDelta : ℚ) (i : Nat) : Bool :=
  img1.data i != img2.data i &&
    decide (maxDelta < |color_delta_f32 (img1.data i) (img2.data i)|)

/-- The cold-pass changed-block predicate, as a function of a block
record. -/
def block_flag (img1 img2 : Image) (maxDelta : ℚ)
    (blk : Nat × Nat × Nat × Nat × Nat) : Bool :=
  block_has_perceptual_diff_scalar img1 img2 blk.1 blk.2.1 blk.2.2.1 blk.2.2.2.1 maxDelta

/-- The state effect of one cold-pass block visit: flagged blocks leave
the output alone, unflagged blocks are gray-filled in background mode. -/
def cold_step (img1 img2 : Image) (hasOut diffMask : Bool) (alpha maxDelta : ℚ)
    (blk : Nat × Nat × Nat × Nat × Nat) (s : DiffState) : DiffState :=
  if block_flag img1 img2 maxDelta blk then s
  else if hasOut && !diffMask then
    fill_block_gray img1 alpha blk.2.2.2.2 blk.1 blk.2.1 blk.2.2.1 blk.2.2.2.1 s
  else s

/-- The block record the cold pass pushes for grid cell
`(bxIdx, byIdx)`: start coordinates, clipped end coordinates, and the
raster block identifier. -/
def blk_tuple (W H blockSize blocksX byIdx bxIdx : Nat) :
    Nat × Nat × Nat × Nat × Nat :=
  (bxIdx * blockSize, byIdx * blockSize,
    min (bxIdx * blockSize + blockSize) W,
    min (byIdx * blockSize + blockSize) H,
    byIdx * blocksX + bxIdx)

/-- The raster-order list of blocks the cold pass records as changed. -/
def changed_blocks_list (img1 img2 : Image) (maxDelta : ℚ)
    (blockSize blocksX blocksY : Nat) : List (Nat × Nat × Nat × Nat × Nat) :=
  ((List.range blocksY).map fun byIdx =>
    (((List.range blocksX).map fun bxIdx =>
      if block_flag img1 img2 maxDelta
          (blk_tuple img1.width img1.height blockSize blocksX byIdx bxIdx) = true then
        [blk_tuple img1.width img1.height blockSize blocksX byIdx bxIdx]
      else []).flatten)).flatten

/-- The hot-pass count of one block: the per-pixel contributions summed in
raster order. -/
def block_cnt_sum (A : HotArgs) (blk : Nat × Nat × Nat × Nat × Nat) : Nat :=
  ((List.range (blk.2.2.2.1 - blk.2.1)).map fun dy =>
    ((List.range (blk.2.2.1 - blk.1)).map fun dx =>
      hot_cnt A (blk.1 + dx) (blk.2.1 + dy)).sum).sum

/-- Trace indicator of one hot-pass block at pixel `i`: 1 exactly when
the pixel lies in the block, the hot pass writes it, and the write source
passes the filter. -/
def hot_blk_traced_ind (img1 img2 : Image) (options : DiffOptions)
    (P : WriteSrc → Bool) (i : Nat) (blk : Nat × Nat × Nat × Nat × Nat) : Nat :=
  if blk.1 ≤ i % img1.width ∧ i % img1.width < blk.2.2.1 ∧
      blk.2.1 ≤ i / img1.width ∧ i / img1.width < blk.2.2.2.1 ∧
      hot_do_write (hot_args img1 img2 true options) (i % img1.width)
        (i / img1.width) = true ∧
      P (WriteSrc.hot blk.2.2.2.2) = true then 1 else 0

/-! ## Concrete inputs for witnesses and counterexamples -/

/-- 2x2 test image: opaque black at pixel 0, opaque white elsewhere. -/
def imgW1 : Image := ⟨2, 2, fun i => if i = 0 then 0xFF000000 else 0xFFFFFFFF⟩

/-- 2x2 test image: opaque white everywhere. -/
def imgW2 : Image := ⟨2, 2, fun _ => 0xFFFFFFFF⟩

/-- 1x1 test image: a single opaque black pixel. -/
def imgB1 : Image := ⟨1, 1, fun _ => 0xFF000000⟩

/-- 1x1 test image: a single opaque white pixel. -/
def imgB2 : Image := ⟨1, 1, fun _ => 0xFFFFFFFF⟩

/-- The default options record (threshold 0.1, alpha 0.1, AA off, yellow
AA marker, red diff marker, no alternate color, no mask). -/
def optsW : DiffOptions :=
  ⟨mkRat 1 10, false, mkRat 1 10, (255, 255, 0), (255, 0, 0), none, false⟩

/-- The default options with `diff_mask` switched on. -/
def optsWmask : DiffOptions :=
  ⟨mkRat 1 10, false, mkRat 1 10, (255, 255, 0), (255, 0, 0), none, true⟩

/-- The default options with the threshold raised to 0.3. -/
def optsWhi : DiffOptions :=
  ⟨mkRat 3 10, false, mkRat 1 10, (255, 255, 0), (255, 0, 0), none, false⟩

/-! ## Basic facts about channels and the metric -/

theorem chan_lt_256 (p : Nat) : chanR p < 256 ∧ chanG p < 256 ∧ chanB p < 256 ∧ chanA p < 256 := by
  refine ⟨?_, ?_, ?_, ?_⟩ <;> simp [chanR, chanG, chanB, chanA, Nat.mod_lt]

theorem chanA_cast_le (p : Nat) : ((chanA p : ℚ)) ≤ 255 := by
  have h : chanA p < 256 := (chan_lt_256 p).2.2.2
  exact_mod_cast Nat.lt_succ_iff.mp h

theorem yiq_mag_nonneg (dr dg db : ℚ) : 0 ≤ yiq_mag dr dg db := by
  unfold yiq_mag
  nlinarith [mul_self_nonneg (yiq_y dr dg db), mul_self_nonneg (yiq_i dr dg db),
    mul_self_nonneg (yiq_q dr dg db)]

theorem yiq_mag_zero : yiq_mag 0 0 0 = 0 := by
  simp [yiq_mag, yiq_y, yiq_i, yiq_q]

/-- When the alpha test `255 ≤ a` holds for a channel value, the alpha is
exactly 255. -/
theorem alpha_eq_of_le (p : Nat) (h : (255 : ℚ) ≤ (chanA p : ℚ)) : ((chanA p : ℚ)) = 255 :=
  le_antisymm (chanA_cast_le p) h

/-- Congruence of the sign-selection step of the metric. -/
theorem sign_if_congr (y1 y2 m1 m2 : ℚ) (hy : y1 = y2) (hm : m1 = m2) :
    (if 0 < y1 then -m1 else m1) = (if 0 < y2 then -m2 else m2) := by
  subst hy; subst hm; rfl

/-- Opaque fast path of `channel_diffs`. -/
theorem channel_diffs_fullalpha (pa pb : Nat)
    (h : (255 : ℚ) ≤ (chanA pa : ℚ) ∧ (255 : ℚ) ≤ (chanA pb : ℚ)) :
    channel_diffs pa pb =
      ((chanR pa : ℚ) - (chanR pb : ℚ), (chanG pa : ℚ) - (chanG pb : ℚ),
        (chanB pa : ℚ) - (chanB pb : ℚ)) := by
  simp only [channel_diffs, if_pos h]

/-- Blending path of `channel_diffs`. -/
theorem channel_diffs_blend (pa pb : Nat)
    (h : ¬((255 : ℚ) ≤ (chanA pa : ℚ) ∧ (255 : ℚ) ≤ (chanA pb : ℚ))) :
    channel_diffs pa pb =
      (255 + ((chanR pa : ℚ) - 255) * (chanA pa : ℚ) * (1 / 255) -
          (255 + ((chanR pb : ℚ) - 255) * (chanA pb : ℚ) * (1 / 255)),
        255 + ((chanG pa : ℚ) - 255) * (chanA pa : ℚ) * (1 / 255) -
          (255 + ((chanG pb : ℚ) - 255) * (chanA pb : ℚ) * (1 / 255)),
        255 + ((chanB pa : ℚ) - 255) * (chanA pa : ℚ) * (1 / 255) -
          (255 + ((chanB pb : ℚ) - 255) * (chanA pb : ℚ) * (1 / 255))) := by
  simp only [channel_diffs, if_neg h]

/-- The magnitude part of the scalar metric: for differing pixels the
absolute delta is the YIQ magnitude of the channel differences. -/
theorem abs_color_delta (pa pb : Nat) (h : pa ≠ pb) :
    |color_delta_f32 pa pb| =
      yiq_mag (channel_diffs pa pb).1 (channel_diffs pa pb).2.1 (channel_diffs pa pb).2.2 := by
  simp only [color_delta_f32, if_neg h]
  have hm := yiq_mag_nonneg (channel_diffs pa pb).1 (channel_diffs pa pb).2.1
    (channel_diffs pa pb).2.2
  split
  · rw [abs_neg, abs_of_nonneg hm]
  · exact abs_of_nonneg hm

theorem color_delta_self (pa : Nat) : color_delta_f32 pa pa = 0 := by
  simp [color_delta_f32]

/-- Swapping the pixel arguments negates the channel differences. -/
theorem channel_diffs_swap (pa pb : Nat) :
    channel_diffs pb pa =
      (-(channel_diffs pa pb).1, -(channel_diffs pa pb).2.1, -(channel_diffs pa pb).2.2) := by
  by_cases h : (255 : ℚ) ≤ (chanA pa : ℚ) ∧ (255 : ℚ) ≤ (chanA pb : ℚ)
  · rw [channel_diffs_fullalpha pb pa ⟨h.2, h.1⟩, channel_diffs_fullalpha pa pb h]
    simp only [Prod.mk.injEq]
    exact ⟨by ring, by ring, by ring⟩
  · rw [channel_diffs_blend pb pa (fun h2 => h ⟨h2.2, h2.1⟩), channel_diffs_blend pa pb h]
    simp only [Prod.mk.injEq]
    exact ⟨by ring, by ring, by ring⟩

theorem yiq_mag_neg (dr dg db : ℚ) : yiq_mag (-dr) (-dg) (-db) = yiq_mag dr dg db := by
  unfold yiq_mag yiq_y yiq_i yiq_q
  ring

/-- The delta magnitude is symmetric in its two pixels. -/
theorem abs_color_delta_swap (pa pb : Nat) :
    |color_delta_f32 pb pa| = |color_delta_f32 pa pb| := by
  by_cases h : pa = pb
  · rw [h]
  · rw [abs_color_delta pb pa (fun e => h e.symm), abs_color_delta pa pb h,
      channel_diffs_swap pa pb, yiq_mag_neg]

/-! ## Claim C2: the scalar pixel metric matches its reference definition -/

/-- C2.  For every pair of 32-bit RGBA pixels, the scalar metric
`color_delta_f32` agrees with the reference definition stated by the
claim: 0 on equal packed words, direct channel differences when both
alphas are 255, otherwise blending over opaque white via
`c' = 255 + (c−255)·a/255`; `Y`, `I`, `Q` with the stated coefficients;
`magnitude = 0.5053·Y² + 0.299·I² + 0.1957·Q²`, negated exactly when
`Y > 0`. -/
theorem c2_color_delta_matches_spec (pixelA pixelB : Nat) :
    color_delta_f32 pixelA pixelB = spec_color_delta pixelA pixelB := by
  by_cases hab : pixelA = pixelB
  · simp [color_delta_f32, spec_color_delta, hab]
  · by_cases hop : (255 : ℚ) ≤ (chanA pixelA : ℚ) ∧ (255 : ℚ) ≤ (chanA pixelB : ℚ)
    · have hpe : ((chanA pixelA : ℚ)) = 255 ∧ ((chanA pixelB : ℚ)) = 255 :=
        ⟨alpha_eq_of_le _ hop.1, alpha_eq_of_le _ hop.2⟩
      simp only [color_delta_f32, spec_color_delta, if_neg hab,
        channel_diffs_fullalpha pixelA pixelB hop, if_pos hpe]
      exact sign_if_congr _ _ _ _ (by simp only [yiq_y]; try ring)
        (by simp only [yiq_mag, yiq_y, yiq_i, yiq_q]; try ring)
    · have hpe : ¬(((chanA pixelA : ℚ)) = 255 ∧ ((chanA pixelB : ℚ)) = 255) := by
        intro h
        exact hop ⟨le_of_eq h.1.symm, le_of_eq h.2.symm⟩
      simp only [color_delta_f32, spec_color_delta, if_neg hab,
        channel_diffs_blend pixelA pixelB hop, if_neg hpe]
      exact sign_if_congr _ _ _ _ (by simp only [yiq_y]; try ring)
        (by simp only [yiq_mag, yiq_y, yiq_i, yiq_q]; try ring)

/-! ## Claim C3: the cold-pass SIMD lane delta -/

unseal Rat.mul Rat.add Rat.sub Rat.inv Rat.ofScientific in
/-- C3, counterexample.  The claim says each cold-pass SIMD lane equals
the YIQ magnitude obtained by *treating both pixels as fully opaque*, for
all alpha values.  At the pixel pair (transparent black, opaque white) the
lane value is 0 — the SIMD code blends by alpha — while the opaque-treated
magnitude is the full black/white delta. -/
theorem c3_counterexample :
    yiq_delta_direct_lane 0x00000000 0xFFFFFFFF ≠
      spec_yiq_delta_opaque 0x00000000 0xFFFFFFFF := by
  decide

/-- C3, amended.  The 4- and 8-pixel SIMD lane delta of the cold pass
*does* perform alpha handling: every lane equals the alpha-aware blended
magnitude — exactly the absolute value of the scalar metric
`color_delta_f32` — for all alpha values. -/
theorem c3_lane_is_blended_magnitude (pixelA pixelB : Nat) :
    yiq_delta_direct_lane pixelA pixelB = |color_delta_f32 pixelA pixelB| := by
  by_cases hab : pixelA = pixelB
  · subst hab
    rw [color_delta_self, abs_zero]
    simp only [yiq_delta_direct_lane]
    have : (255 : ℚ) + ((chanR pixelA : ℚ) - 255) * ((chanA pixelA : ℚ) * (1 / 255)) -
        (255 + ((chanR pixelA : ℚ) - 255) * ((chanA pixelA : ℚ) * (1 / 255))) = 0 := by ring
    rw [show (255 : ℚ) + ((chanR pixelA : ℚ) - 255) * ((chanA pixelA : ℚ) * (1 / 255)) -
        (255 + ((chanR pixelA : ℚ) - 255) * ((chanA pixelA : ℚ) * (1 / 255))) = 0 from by ring,
      show (255 : ℚ) + ((chanG pixelA : ℚ) - 255) * ((chanA pixelA : ℚ) * (1 / 255)) -
        (255 + ((chanG pixelA : ℚ) - 255) * ((chanA pixelA : ℚ) * (1 / 255))) = 0 from by ring,
      show (255 : ℚ) + ((chanB pixelA : ℚ) - 255) * ((chanA pixelA : ℚ) * (1 / 255)) -
        (255 + ((chanB pixelA : ℚ) - 255) * ((chanA pixelA : ℚ) * (1 / 255))) = 0 from by ring,
      yiq_mag_zero]
  · rw [abs_color_delta pixelA pixelB hab]
    by_cases hop : (255 : ℚ) ≤ (chanA pixelA : ℚ) ∧ (255 : ℚ) ≤ (chanA pixelB : ℚ)
    · have he1 := alpha_eq_of_le pixelA hop.1
      have he2 := alpha_eq_of_le pixelB hop.2
      simp only [yiq_delta_direct_lane, channel_diffs_fullalpha pixelA pixelB hop, he1, he2]
      unfold yiq_mag yiq_y yiq_i yiq_q
      ring
    · simp only [yiq_delta_direct_lane, channel_diffs_blend pixelA pixelB hop]
      unfold yiq_mag yiq_y yiq_i yiq_q
      ring

/-! ## Claim C9: the luminance-only delta of the bin crate's metric -/

unseal Rat.mul Rat.add Rat.sub Rat.inv Rat.ofScientific in
/-- C9, counterexample.  The claim says the `y_only` delta blends over an
opaque *white* background (`cb = 255`) and is independent of the pixel's
position.  Both parts fail on `color_delta` of
src/packages/bin/rust/src/yiq.rs: at pixel pair (transparent black,
opaque black) and index 0 the code blends over the checkerboard value 48,
not 255; and the same pixel pair evaluated at indices 0 and 1 gives two
different deltas. -/
theorem c9_counterexample :
    bin_color_delta 0x00000000 0xFF000000 0 true ≠
        spec_white_delta_y 0x00000000 0xFF000000 ∧
      bin_color_delta 0x00000000 0xFF000000 0 true ≠
        bin_color_delta 0x00000000 0xFF000000 1 true := by
  decide

/-- C9, amended.  The luminance-only delta of
src/packages/bin/rust/src/yiq.rs blends each pixel over the *procedural
checkerboard* background of its pixel index — it equals the legacy
formulation with `cb = checker(pixel_index)`, i.e. the `Y` component of
the differences of the channels blended over that background — and is
therefore position-dependent, not white-background. -/
theorem c9_bin_delta_blends_over_checkerboard (pixelA pixelB pixelIndex : Nat) :
    bin_color_delta pixelA pixelB pixelIndex true =
      yiq_y
        (blend_over (chanR pixelA) (chanA pixelA) (checker_rb pixelIndex) -
          blend_over (chanR pixelB) (chanA pixelB) (checker_rb pixelIndex))
        (blend_over (chanG pixelA) (chanA pixelA) (checker_gb pixelIndex) -
          blend_over (chanG pixelB) (chanA pixelB) (checker_gb pixelIndex))
        (blend_over (chanB pixelA) (chanA pixelA) (checker_bb pixelIndex) -
          blend_over (chanB pixelB) (chanA pixelB) (checker_bb pixelIndex)) := by
  simp only [bin_color_delta, eq_self_iff_true, if_true]
  by_cases hz : ((chanR pixelA : ℚ)) - (chanR pixelB : ℚ) = 0 ∧
      ((chanG pixelA : ℚ)) - (chanG pixelB : ℚ) = 0 ∧
      ((chanB pixelA : ℚ)) - (chanB pixelB : ℚ) = 0 ∧
      ((chanA pixelA : ℚ)) - (chanA pixelB : ℚ) = 0
  · rw [if_pos hz]
    have hr := sub_eq_zero.mp hz.1
    have hg := sub_eq_zero.mp hz.2.1
    have hb := sub_eq_zero.mp hz.2.2.1
    have ha := sub_eq_zero.mp hz.2.2.2
    rw [hr, hg, hb, ha]
    simp only [sub_self, yiq_y]
    ring
  · rw [if_neg hz]
    by_cases hbl : chanA pixelA < 255 ∨ chanA pixelB < 255
    · simp only [if_pos hbl, blend_over, yiq_y]
      ring
    · push_neg at hbl
      have h1 : chanA pixelA = 255 := le_antisymm
        (Nat.lt_succ_iff.mp (chan_lt_256 pixelA).2.2.2) hbl.1
      have h2 : chanA pixelB = 255 := le_antisymm
        (Nat.lt_succ_iff.mp (chan_lt_256 pixelB).2.2.2) hbl.2
      have hbl' : ¬(chanA pixelA < 255 ∨ chanA pixelB < 255) := by
        rw [h1, h2]; simp
      simp only [if_neg hbl']
      simp only [blend_over, h1, h2, yiq_y]
      push_cast
      ring

/-! ## Claim C10: scalar vs SIMD desaturation parity -/

unseal Rat.mul Rat.add Rat.sub Rat.inv Rat.ofScientific in
/-- C10.  The spec requires bit-identical gray bytes across the scalar and
SIMD desaturation paths, all using round-toward-zero truncation.  The x86
paths violate this: for source pixel RGBA(3,0,0,255) and
`alpha_scaled = 0.5/255` the scalar `compute_gray_f32_fast` (Rust `as u8`,
truncating) writes 127 while `fill_row_gray_sse4` and `compute_gray_8_avx2`
(`cvtps2dq`, round-to-nearest-even) write 128: the clamped gray value is
≈ 127.948. -/
theorem c10_x86_rounding_divergence :
    compute_gray_f32_fast 0xFF000003 (1 / 510) = 127 ∧
      fill_row_gray_sse4_lane 0xFF000003 (1 / 510) = 128 ∧
      compute_gray_8_avx2_lane 0xFF000003 (1 / 510) = 128 := by
  decide

/-! ## Generic fold decompositions -/

/-- A fold whose step adds a state-independent amount to the first (count)
component splits into the count sum and the state fold. -/
theorem foldl_pair_split {α : Type} (g : Nat × DiffState → α → Nat × DiffState)
    (k : α → Nat) (t : α → DiffState → DiffState)
    (h : ∀ cs a, g cs a = (cs.1 + k a, t a cs.2)) (l : List α) :
    ∀ cs : Nat × DiffState,
      l.foldl g cs = (cs.1 + (l.map k).sum, l.foldl (fun s a => t a s) cs.2) := by
  induction l with
  | nil => intro cs; simp
  | cons a tl ih =>
    intro cs
    rw [List.foldl_cons, h cs a, ih, List.map_cons, List.sum_cons, List.foldl_cons]
    exact congrArg (fun n => (n, tl.foldl (fun s a => t a s) (t a cs.2))) (by omega)

/-- A fold whose step appends a state-independent batch to the first
(list) component splits into the concatenation and the state fold. -/
theorem foldl_blocks_split {α β : Type} (g : List β × DiffState → α → List β × DiffState)
    (d : α → List β) (t : α → DiffState → DiffState)
    (h : ∀ bs a, g bs a = (bs.1 ++ d a, t a bs.2)) (l : List α) :
    ∀ bs : List β × DiffState,
      l.foldl g bs = (bs.1 ++ (l.map d).flatten, l.foldl (fun s a => t a s) bs.2) := by
  induction l with
  | nil => intro bs; simp
  | cons a tl ih =>
    intro bs
    rw [List.foldl_cons, h bs a, ih, List.map_cons, List.flatten_cons, List.foldl_cons,
      List.append_assoc]

/-! ## Write and trace bookkeeping -/

theorem write_out (s : DiffState) (i v : Nat) (src : WriteSrc) (j : Nat) :
    (s.write i v src).out j = if j = i then v else s.out j := rfl

theorem write_trace (s : DiffState) (i v : Nat) (src : WriteSrc) :
    (s.write i v src).trace = (i, src) :: s.trace := rfl

theorem tracedCount_cons (P : WriteSrc → Bool) (j i : Nat) (src : WriteSrc)
    (tr : List (Nat × WriteSrc)) :
    tracedCount P j ((i, src) :: tr) =
      (if i = j ∧ P src = true then 1 else 0) + tracedCount P j tr := by
  simp only [tracedCount, List.filter]
  by_cases h1 : i = j
  · by_cases h2 : P src = true
    · simp [h1, h2, Nat.add_comm]
    · simp [h1, h2]
  · have hb : (i == j) = false := beq_false_of_ne h1
    simp [hb, h1]

theorem tracedCount_nil (P : WriteSrc → Bool) (j : Nat) :
    tracedCount P j [] = 0 := rfl

/-! ## Painting a rectangle: final buffer contents and write counts -/

theorem paint_step_out (W : Nat) (doW : Nat → Nat → Bool) (v : Nat → Nat → Nat)
    (src : WriteSrc) (x y : Nat) (s : DiffState) (i : Nat) :
    (paint_step W doW v src x y s).out i =
      if doW x y = true ∧ i = y * W + x then v x y else s.out i := by
  unfold paint_step
  by_cases hw : doW x y = true
  · rw [if_pos hw, write_out]
    by_cases hi : i = y * W + x
    · rw [if_pos hi, if_pos ⟨hw, hi⟩]
    · rw [if_neg hi, if_neg (fun hc => hi hc.2)]
  · rw [if_neg hw, if_neg (fun hc => hw hc.1)]

theorem paint_step_traced (P : WriteSrc → Bool) (W : Nat) (doW : Nat → Nat → Bool)
    (v : Nat → Nat → Nat) (src : WriteSrc) (x y : Nat) (s : DiffState) (i : Nat) :
    tracedCount P i (paint_step W doW v src x y s).trace =
      (if doW x y = true ∧ i = y * W + x ∧ P src = true then 1 else 0) +
        tracedCount P i s.trace := by
  unfold paint_step
  by_cases hw : doW x y = true
  · rw [if_pos hw, write_trace, tracedCount_cons]
    by_cases hi : y * W + x = i
    · by_cases hp : P src = true
      · rw [if_pos ⟨hi, hp⟩, if_pos ⟨hw, hi.symm, hp⟩]
      · rw [if_neg (fun hc => hp hc.2), if_neg (fun hc => hp hc.2.2)]
    · rw [if_neg (fun hc => hi hc.1), if_neg (fun hc => hi hc.2.1.symm)]
  · rw [if_neg hw, if_neg (fun hc => hw hc.1)]
    omega

/-- Contents of the buffer after one painted row. -/
theorem paint_row_out (W : Nat) (doW : Nat → Nat → Bool) (v : Nat → Nat → Nat)
    (src : WriteSrc) (y sx : Nat) (n : Nat) (s : DiffState) (i : Nat) :
    ((List.range n).foldl (fun s dx => paint_step W doW v src (sx + dx) y s) s).out i =
      if y * W + sx ≤ i ∧ i < y * W + sx + n ∧ doW (i - y * W) y = true
      then v (i - y * W) y
      else s.out i := by
  induction n generalizing s with
  | zero =>
    rw [List.range_zero, List.foldl_nil, if_neg]
    rintro ⟨h1, h2, h3⟩
    omega
  | succ n ih =>
    rw [List.range_succ, List.foldl_append, List.foldl_cons, List.foldl_nil,
      paint_step_out, ih]
    by_cases hi : i = y * W + (sx + n)
    · have hx : i - y * W = sx + n := by omega
      rw [hx]
      by_cases hw : doW (sx + n) y = true
      · rw [if_pos ⟨hw, hi⟩, if_pos ⟨by omega, by omega, hw⟩]
      · rw [if_neg (fun hc => hw hc.1), if_neg (by rintro ⟨h1, h2, h3⟩; exact hw h3),
          if_neg (by rintro ⟨h1, h2, h3⟩; exact hw h3)]
    · rw [if_neg (fun hc => hi hc.2)]
      by_cases hband : y * W + sx ≤ i ∧ i < y * W + sx + n ∧ doW (i - y * W) y = true
      · rw [if_pos hband, if_pos ⟨hband.1, by omega, hband.2.2⟩]
      · rw [if_neg hband, if_neg]
        rintro ⟨h1, h2, h3⟩
        exact hband ⟨h1, by omega, h3⟩

/-- Write counts after one painted row. -/
theorem paint_row_traced (P : WriteSrc → Bool) (W : Nat) (doW : Nat → Nat → Bool)
    (v : Nat → Nat → Nat) (src : WriteSrc) (y sx : Nat) (n : Nat) (s : DiffState) (i : Nat) :
    tracedCount P i
        ((List.range n).foldl (fun s dx => paint_step W doW v src (sx + dx) y s) s).trace =
      (if y * W + sx ≤ i ∧ i < y * W + sx + n ∧ doW (i - y * W) y = true ∧ P src = true
        then 1 else 0) + tracedCount P i s.trace := by
  induction n generalizing s with
  | zero =>
    rw [List.range_zero, List.foldl_nil, if_neg]
    · omega
    · rintro ⟨h1, h2, h3⟩
      omega
  | succ n ih =>
    rw [List.range_succ, List.foldl_append, List.foldl_cons, List.foldl_nil,
      paint_step_traced, ih]
    by_cases hi : i = y * W + (sx + n)
    · have hx : i - y * W = sx + n := by omega
      rw [hx]
      have hnone : ¬(y * W + sx ≤ i ∧ i < y * W + sx + n ∧ doW (sx + n) y = true ∧
          P src = true) := by
        rintro ⟨h1, h2, h3⟩
        omega
      rw [if_neg hnone]
      by_cases hw : doW (sx + n) y = true
      · by_cases hp : P src = true
        · rw [if_pos ⟨hw, hi, hp⟩, if_pos ⟨by omega, by omega, hw, hp⟩]
          omega
        · rw [if_neg (fun hc => hp hc.2.2), if_neg (fun hc => hp hc.2.2.2)]
          omega
      · rw [if_neg (fun hc => hw hc.1), if_neg (fun hc => hw hc.2.2.1)]
        omega
    · rw [if_neg (fun hc => hi hc.2.1)]
      by_cases hband : y * W + sx ≤ i ∧ i < y * W + sx + n ∧ doW (i - y * W) y = true ∧
          P src = true
      · rw [if_pos hband, if_pos ⟨hband.1, by omega, hband.2.2⟩]
        omega
      · rw [if_neg hband, if_neg]
        · omega
        · rintro ⟨h1, h2, h3⟩
          exact hband ⟨h1, by omega, h3⟩


/-- Buffer contents after painting a whole rectangle: pixel index `i` is
rewritten exactly when its coordinates `(i % W, i / W)` lie in the
rectangle and the write condition holds there. -/
theorem paint_rect_out (W sx sy ex ey : Nat) (doW : Nat → Nat → Bool)
    (v : Nat → Nat → Nat) (src : WriteSrc) (hW : 0 < W) (hex : ex ≤ W)
    (s : DiffState) (i : Nat) :
    (paint_rect W sx sy ex ey doW v src s).out i =
      if sx ≤ i % W ∧ i % W < ex ∧ sy ≤ i / W ∧ i / W < ey ∧
          doW (i % W) (i / W) = true
      then v (i % W) (i / W) else s.out i := by
  have aux : ∀ (m : Nat) (s : DiffState),
      ((List.range m).foldl
        (fun s dy => (List.range (ex - sx)).foldl
          (fun s dx => paint_step W doW v src (sx + dx) (sy + dy) s) s) s).out i =
        if sx ≤ i % W ∧ i % W < ex ∧ sy ≤ i / W ∧ i / W < sy + m ∧
            doW (i % W) (i / W) = true
        then v (i % W) (i / W) else s.out i := by
    intro m
    induction m with
    | zero =>
      intro s
      rw [List.range_zero, List.foldl_nil, if_neg]
      rintro ⟨_, _, h3, h4, _⟩
      omega
    | succ m ih =>
      intro s
      rw [List.range_succ, List.foldl_append, List.foldl_cons, List.foldl_nil,
        paint_row_out]
      by_cases hy : i / W = sy + m
      · have hdm := Nat.div_add_mod i W
        rw [hy, Nat.mul_comm] at hdm
        have hml : i % W < W := Nat.mod_lt i hW
        have hsub : i - (sy + m) * W = i % W := by omega
        rw [hsub]
        by_cases hx : sx ≤ i % W ∧ i % W < ex
        · by_cases hdo : doW (i % W) (sy + m) = true
          · rw [if_pos ⟨by omega, by omega, hdo⟩,
              if_pos (show _ ∧ _ ∧ _ ∧ _ ∧ _ from by
                rw [hy]; exact ⟨hx.1, hx.2, by omega, by omega, hdo⟩)]
            rw [hy]
          · rw [if_neg (by rintro ⟨_, _, h3⟩; exact hdo h3), ih,
              if_neg (by rintro ⟨_, _, _, h4, _⟩; omega),
              if_neg (by rintro ⟨_, _, _, _, h5⟩; rw [hy] at h5; exact hdo h5)]
        · rw [if_neg (by
              rintro ⟨h1, h2, _⟩
              exact hx ⟨by omega, by omega⟩), ih,
            if_neg (by rintro ⟨h1, h2, _⟩; exact hx ⟨h1, h2⟩),
            if_neg (by rintro ⟨h1, h2, _⟩; exact hx ⟨h1, h2⟩)]
      · rw [if_neg (by
            rintro ⟨h1, h2, _⟩
            apply hy
            have hse : sx < ex := by omega
            apply Nat.div_eq_of_lt_le
            · omega
            · rw [Nat.succ_mul]
              omega), ih]
        refine if_congr ⟨?_, ?_⟩ rfl rfl
        · rintro ⟨a, b, c, d, e⟩
          exact ⟨a, b, c, by omega, e⟩
        · rintro ⟨a, b, c, d, e⟩
          exact ⟨a, b, c, by omega, e⟩
  refine (aux (ey - sy) s).trans ?_
  refine if_congr ⟨?_, ?_⟩ rfl rfl
  · rintro ⟨a, b, c, d, e⟩
    exact ⟨a, b, c, by omega, e⟩
  · rintro ⟨a, b, c, d, e⟩
    exact ⟨a, b, c, by omega, e⟩

/-- Write counts after painting a whole rectangle: pixel index `i`
receives exactly one `P`-counted write when its coordinates lie in the
rectangle, the write condition holds and the source matches, and none
otherwise. -/
theorem paint_rect_traced (P : WriteSrc → Bool) (W sx sy ex ey : Nat)
    (doW : Nat → Nat → Bool) (v : Nat → Nat → Nat) (src : WriteSrc)
    (hW : 0 < W) (hex : ex ≤ W) (s : DiffState) (i : Nat) :
    tracedCount P i (paint_rect W sx sy ex ey doW v src s).trace =
      (if sx ≤ i % W ∧ i % W < ex ∧ sy ≤ i / W ∧ i / W < ey ∧
          doW (i % W) (i / W) = true ∧ P src = true
        then 1 else 0) + tracedCount P i s.trace := by
  have aux : ∀ (m : Nat) (s : DiffState),
      tracedCount P i
        ((List.range m).foldl
          (fun s dy => (List.range (ex - sx)).foldl
            (fun s dx => paint_step W doW v src (sx + dx) (sy + dy) s) s) s).trace =
        (if sx ≤ i % W ∧ i % W < ex ∧ sy ≤ i / W ∧ i / W < sy + m ∧
            doW (i % W) (i / W) = true ∧ P src = true
          then 1 else 0) + tracedCount P i s.trace := by
    intro m
    induction m with
    | zero =>
      intro s
      rw [List.range_zero, List.foldl_nil, if_neg]
      · omega
      · rintro ⟨_, _, h3, h4, _⟩
        omega
    | succ m ih =>
      intro s
      rw [List.range_succ, List.foldl_append, List.foldl_cons, List.foldl_nil,
        paint_row_traced, ih]
      by_cases hy : i / W = sy + m
      · have hdm := Nat.div_add_mod i W
        rw [hy, Nat.mul_comm] at hdm
        have hml : i % W < W := Nat.mod_lt i hW
        have hsub : i - (sy + m) * W = i % W := by omega
        rw [hsub]
        by_cases hx : sx ≤ i % W ∧ i % W < ex
        · by_cases hdo : doW (i % W) (sy + m) = true
          · by_cases hp : P src = true
            · rw [if_pos ⟨by omega, by omega, hdo, hp⟩,
                if_neg (show ¬(sx ≤ i % W ∧ i % W < ex ∧ sy ≤ i / W ∧ i / W < sy + m ∧
                  doW (i % W) (i / W) = true ∧ P src = true) from by
                  rintro ⟨_, _, _, h4, _⟩; omega),
                if_pos (show sx ≤ i % W ∧ i % W < ex ∧ sy ≤ i / W ∧ i / W < sy + (m + 1) ∧
                  doW (i % W) (i / W) = true ∧ P src = true from by
                  rw [hy]; exact ⟨hx.1, hx.2, by omega, by omega, hdo, hp⟩)]
              omega
            · rw [if_neg (show ¬((sy + m) * W + sx ≤ i ∧ i < (sy + m) * W + sx + (ex - sx) ∧
                  doW (i % W) (sy + m) = true ∧ P src = true) from by
                  rintro ⟨_, _, _, h4⟩; exact hp h4),
                if_neg (show ¬(sx ≤ i % W ∧ i % W < ex ∧ sy ≤ i / W ∧ i / W < sy + m ∧
                  doW (i % W) (i / W) = true ∧ P src = true) from by
                  rintro ⟨_, _, _, h4, _⟩; omega),
                if_neg (show ¬(sx ≤ i % W ∧ i % W < ex ∧ sy ≤ i / W ∧ i / W < sy + (m + 1) ∧
                  doW (i % W) (i / W) = true ∧ P src = true) from by
                  rintro ⟨_, _, _, _, _, h6⟩; exact hp h6)]
              omega
          · rw [if_neg (show ¬((sy + m) * W + sx ≤ i ∧ i < (sy + m) * W + sx + (ex - sx) ∧
                doW (i % W) (sy + m) = true ∧ P src = true) from by
                rintro ⟨_, _, h3, _⟩; exact hdo h3),
              if_neg (show ¬(sx ≤ i % W ∧ i % W < ex ∧ sy ≤ i / W ∧ i / W < sy + m ∧
                doW (i % W) (i / W) = true ∧ P src = true) from by
                rintro ⟨_, _, _, h4, _⟩; omega),
              if_neg (show ¬(sx ≤ i % W ∧ i % W < ex ∧ sy ≤ i / W ∧ i / W < sy + (m + 1) ∧
                doW (i % W) (i / W) = true ∧ P src = true) from by
                rintro ⟨_, _, _, _, h5, _⟩; rw [hy] at h5; exact hdo h5)]
            omega
        · rw [if_neg (show ¬((sy + m) * W + sx ≤ i ∧ i < (sy + m) * W + sx + (ex - sx) ∧
              doW (i % W) (sy + m) = true ∧ P src = true) from by
              rintro ⟨h1, h2, _⟩
              exact hx ⟨by omega, by omega⟩),
            if_neg (show ¬(sx ≤ i % W ∧ i % W < ex ∧ sy ≤ i / W ∧ i / W < sy + m ∧
              doW (i % W) (i / W) = true ∧ P src = true) from by
              rintro ⟨h1, h2, _⟩; exact hx ⟨h1, h2⟩),
            if_neg (show ¬(sx ≤ i % W ∧ i % W < ex ∧ sy ≤ i / W ∧ i / W < sy + (m + 1) ∧
              doW (i % W) (i / W) = true ∧ P src = true) from by
              rintro ⟨h1, h2, _⟩; exact hx ⟨h1, h2⟩)]
          omega
      · rw [if_neg (show ¬((sy + m) * W + sx ≤ i ∧ i < (sy + m) * W + sx + (ex - sx) ∧
            doW (i - (sy + m) * W) (sy + m) = true ∧ P src = true) from by
            rintro ⟨h1, h2, _⟩
            apply hy
            have hse : sx < ex := by omega
            apply Nat.div_eq_of_lt_le
            · omega
            · rw [Nat.succ_mul]
              omega),
          Nat.zero_add]
        refine congrArg (fun n => n + tracedCount P i s.trace) ?_
        refine if_congr ⟨?_, ?_⟩ rfl rfl
        · rintro ⟨a, b, c, d, e⟩
          exact ⟨a, b, c, by omega, e⟩
        · rintro ⟨a, b, c, d, e⟩
          exact ⟨a, b, c, by omega, e⟩
  refine (aux (ey - sy) s).trans ?_
  refine congrArg (fun n => n + tracedCount P i s.trace) ?_
  refine if_congr ⟨?_, ?_⟩ rfl rfl
  · rintro ⟨a, b, c, d, e⟩
    exact ⟨a, b, c, by omega, e⟩
  · rintro ⟨a, b, c, d, e⟩
    exact ⟨a, b, c, by omega, e⟩

/-! ## The three painters as rectangle paints -/

theorem clear_out (n : Nat) (s : DiffState) (i : Nat) :
    (clear_transparent n s).out i = if i < n then 0 else s.out i := by
  unfold clear_transparent
  induction n generalizing s with
  | zero => simp
  | succ n ih =>
    rw [List.range_succ, List.foldl_append, List.foldl_cons, List.foldl_nil, write_out]
    by_cases hi : i = n
    · rw [if_pos hi, if_pos (by omega)]
    · rw [if_neg hi, ih]
      by_cases hlt : i < n
      · rw [if_pos hlt, if_pos (by omega)]
      · rw [if_neg hlt, if_neg (by omega)]

theorem clear_traced (P : WriteSrc → Bool) (n : Nat) (s : DiffState) (i : Nat) :
    tracedCount P i (clear_transparent n s).trace =
      (if i < n ∧ P WriteSrc.clear = true then 1 else 0) + tracedCount P i s.trace := by
  unfold clear_transparent
  induction n generalizing s with
  | zero =>
    rw [List.range_zero, List.foldl_nil, if_neg (by rintro ⟨h, _⟩; omega)]
    omega
  | succ n ih =>
    rw [List.range_succ, List.foldl_append, List.foldl_cons, List.foldl_nil,
      write_trace, tracedCount_cons, ih]
    by_cases hi : n = i
    · by_cases hp : P WriteSrc.clear = true
      · rw [if_pos ⟨hi, hp⟩, if_neg (by rintro ⟨h, _⟩; omega), if_pos ⟨by omega, hp⟩]
        omega
      · rw [if_neg (fun hc => hp hc.2), if_neg (fun hc => hp hc.2), if_neg (fun hc => hp hc.2)]
        omega
    · rw [if_neg (fun hc => hi hc.1)]
      by_cases hlt : i < n
      · by_cases hp : P WriteSrc.clear = true
        · rw [if_pos ⟨hlt, hp⟩, if_pos ⟨by omega, hp⟩]
          omega
        · rw [if_neg (fun hc => hp hc.2), if_neg (fun hc => hp hc.2)]
          omega
      · rw [if_neg (by rintro ⟨h, _⟩; omega), if_neg (by rintro ⟨h, _⟩; omega)]
        omega

/-- The cold-pass gray fill is an unconditional rectangle paint with the
desaturated value of the source pixel at each index. -/
theorem fill_block_gray_eq (source : Image) (alpha : ℚ) (b : Nat)
    (sx sy ex ey : Nat) (s : DiffState) :
    fill_block_gray source alpha b sx sy ex ey s =
      paint_rect source.width sx sy ex ey (fun _ _ => true)
        (fun x y => pack_gray_pixel
          (compute_gray_f32_fast (source.data (y * source.width + x)) (alpha * (1 / 255))))
        (WriteSrc.cold b) s := by
  unfold fill_block_gray paint_rect rectFold paint_step
  rfl

/-- `hot_pixel` splits into its count contribution and a single
conditional write. -/
theorem hot_pixel_eq (A : HotArgs) (x y : Nat) (cs : Nat × DiffState) :
    hot_pixel A x y cs =
      (cs.1 + hot_cnt A x y,
        paint_step A.width (hot_do_write A) (hot_val A) (WriteSrc.hot A.blockId) x y cs.2) := by
  simp only [hot_pixel, hot_cnt, hot_do_write, hot_val, paint_step, process_diff_pixel,
    hot_gray]
  by_cases h1 : A.img1.data (y * A.width + x) = A.img2.data (y * A.width + x)
  · simp only [if_pos h1]
    cases hd : A.drawBackground <;> cases ho : A.hasOut <;> simp
  · simp only [if_neg h1]
    by_cases h2 : A.maxDelta <
        |color_delta_f32 (A.img1.data (y * A.width + x)) (A.img2.data (y * A.width + x))|
    · simp only [if_pos h2]
      cases h3 : A.includeAA <;>
        cases h4 : (is_antialiased A.img1 A.img2 x y || is_antialiased A.img2 A.img1 x y) <;>
        cases ho : A.hasOut <;> simp
    · simp only [if_neg h2]
      cases hd : A.drawBackground <;> cases ho : A.hasOut <;> simp

/-- A hot block run is the sum of the per-pixel counts together with the
hot rectangle paint. -/
theorem process_hot_block_split (A : HotArgs) (sx sy ex ey : Nat) (s : DiffState) :
    process_hot_block_scalar A sx sy ex ey s =
      (((List.range (ey - sy)).map fun dy =>
          ((List.range (ex - sx)).map fun dx => hot_cnt A (sx + dx) (sy + dy)).sum).sum,
        paint_rect A.width sx sy ex ey (hot_do_write A) (hot_val A)
          (WriteSrc.hot A.blockId) s) := by
  have hrow : ∀ (cs : Nat × DiffState) (dy : Nat),
      (List.range (ex - sx)).foldl (fun cs dx => hot_pixel A (sx + dx) (sy + dy) cs) cs =
        (cs.1 + ((List.range (ex - sx)).map fun dx => hot_cnt A (sx + dx) (sy + dy)).sum,
          (List.range (ex - sx)).foldl
            (fun s dx => paint_step A.width (hot_do_write A) (hot_val A)
              (WriteSrc.hot A.blockId) (sx + dx) (sy + dy) s) cs.2) := by
    intro cs dy
    exact foldl_pair_split _ _ _ (fun cs dx => hot_pixel_eq A (sx + dx) (sy + dy) cs) _ cs
  have houter := foldl_pair_split
    (fun cs dy => (List.range (ex - sx)).foldl
      (fun cs dx => hot_pixel A (sx + dx) (sy + dy) cs) cs)
    (fun dy => ((List.range (ex - sx)).map fun dx => hot_cnt A (sx + dx) (sy + dy)).sum)
    (fun dy s => (List.range (ex - sx)).foldl
      (fun s dx => paint_step A.width (hot_do_write A) (hot_val A)
        (WriteSrc.hot A.blockId) (sx + dx) (sy + dy) s) s)
    (fun cs dy => hrow cs dy)
    (List.range (ey - sy)) (0, s)
  refine houter.trans ?_
  rw [Nat.zero_add]
  rfl

/-! ## Summation plumbing: chunked ranges and nested sums -/

theorem sum_map_zero {α : Type} (l : List α) : (l.map fun _ => (0 : Nat)).sum = 0 := by
  induction l with
  | nil => rfl
  | cons a t ih => simp [ih]

theorem sum_map_add {α : Type} (p q : α → Nat) (l : List α) :
    (l.map fun a => p a + q a).sum = (l.map p).sum + (l.map q).sum := by
  induction l with
  | nil => rfl
  | cons a t ih => simp [ih]; omega

theorem sum_map_comm {α β : Type} (l1 : List α) (l2 : List β) (g : α → β → Nat) :
    (l1.map fun a => (l2.map fun b => g a b).sum).sum =
      (l2.map fun b => (l1.map fun a => g a b).sum).sum := by
  induction l1 with
  | nil => simp [sum_map_zero]
  | cons a t ih => simp only [List.map_cons, List.sum_cons, ih, sum_map_add]

theorem sum_map_filter {α : Type} (p : α → Bool) (f : α → Nat) (l : List α) :
    ((l.filter p).map f).sum = (l.map fun a => if p a = true then f a else 0).sum := by
  induction l with
  | nil => rfl
  | cons a t ih =>
    by_cases h : p a = true
    · simp [List.filter, h, ih]
    · simp [List.filter, h, ih, Bool.of_not_eq_true h]

theorem range_sum_add (a b : Nat) (f : Nat → Nat) :
    ((List.range (a + b)).map f).sum =
      ((List.range a).map f).sum + ((List.range b).map fun d => f (a + d)).sum := by
  induction b with
  | zero => simp
  | succ b ih =>
    rw [show a + (b + 1) = (a + b) + 1 from rfl, List.range_succ, List.map_append,
      List.sum_append, ih, List.range_succ, List.map_append, List.sum_append]
    simp [Nat.add_assoc]

/-- Splitting `[0, N)` into `⌈N/B⌉` consecutive chunks of width `B`
(clipped at `N`) preserves sums. -/
theorem chunk_sum (B : Nat) (hB : 0 < B) :
    ∀ (N : Nat) (f : Nat → Nat),
      ((List.range ((N + B - 1) / B)).map fun k =>
        ((List.range (min (k * B + B) N - k * B)).map fun d => f (k * B + d)).sum).sum =
      ((List.range N).map f).sum := by
  intro N
  induction N using Nat.strong_induction_on with
  | _ N ih =>
    intro f
    by_cases h0 : N = 0
    · subst h0
      rw [show (0 + B - 1) / B = 0 from Nat.div_eq_of_lt (by omega)]
      rfl
    · by_cases h1 : N ≤ B
      · have hm : (N + B - 1) / B = 1 := by
          apply Nat.div_eq_of_lt_le
          · omega
          · rw [Nat.succ_mul]
            omega
        rw [hm, List.range_succ, List.range_zero]
        simp only [List.nil_append, List.map_cons, List.map_nil, List.sum_cons, List.sum_nil]
        rw [show min (0 * B + B) N - 0 * B = N from by omega]
        rw [List.map_congr_left fun d _ => congrArg f (by omega : 0 * B + d = d)]
        simp
      · have hm : (N + B - 1) / B = ((N - B) + B - 1) / B + 1 := by
          rw [show N + B - 1 = (N - B + B - 1) + B from by omega, Nat.add_div_right _ hB]
        rw [hm, List.range_succ_eq_map, List.map_cons, List.sum_cons, List.map_map]
        rw [show min (0 * B + B) N - 0 * B = B from by omega]
        have htail :
            (List.range ((N - B + B - 1) / B)).map
                ((fun k => ((List.range (min (k * B + B) N - k * B)).map
                  fun d => f (k * B + d)).sum) ∘ Nat.succ) =
              (List.range ((N - B + B - 1) / B)).map fun k =>
                ((List.range (min (k * B + B) (N - B) - k * B)).map
                  fun d => (fun e => f (B + e)) (k * B + d)).sum := by
          apply List.map_congr_left
          intro j _
          simp only [Function.comp]
          have hb1 : Nat.succ j * B + B = j * B + B + B := by
            rw [Nat.succ_eq_add_one]; ring
          have hb2 : Nat.succ j * B = j * B + B := by
            rw [Nat.succ_eq_add_one]; ring
          rw [hb1, hb2, show min (j * B + B + B) N - (j * B + B) =
            min (j * B + B) (N - B) - j * B from by omega]
          apply congrArg
          apply List.map_congr_left
          intro d _
          exact congrArg f (by ring)
        rw [htail, ih (N - B) (by omega) (fun e => f (B + e)),
          show N = B + (N - B) from by omega, range_sum_add]
        congr 1
        · rw [List.map_congr_left fun d _ => congrArg f
            (by omega : 0 * B + d = d)]
        · rw [show B + (N - B) - B = N - B from by omega]

/-! ## Decomposing the cold and hot passes -/

theorem flatten_if_singleton {α : Type} (p : α → Bool) (l : List α) :
    (l.map fun a => if p a = true then [a] else []).flatten = l.filter p := by
  induction l with
  | nil => rfl
  | cons a t ih =>
    by_cases h : p a = true <;> simp [List.filter_cons, h, ih]

theorem filter_flatten_eq {α : Type} (p : α → Bool) (L : List (List α)) :
    L.flatten.filter p = (L.map fun l => l.filter p).flatten := by
  induction L with
  | nil => rfl
  | cons l t ih => simp [List.filter_append, ih]

theorem foldl_flatten_eq {α σ : Type} (f : σ → α → σ) (L : List (List α)) (s : σ) :
    L.flatten.foldl f s = L.foldl (fun s row => row.foldl f s) s := by
  induction L generalizing s with
  | nil => rfl
  | cons l t ih => simp [List.foldl_append, ih]

/-- One cold-pass block visit appends its (possibly empty) flagged-block
singleton and applies the cold step to the state. -/
theorem cold_visit_eq (img1 img2 : Image) (hasOut diffMask : Bool)
    (alpha maxDelta : ℚ) (blockSize blocksX : Nat) (byIdx bxIdx : Nat)
    (acc : List (Nat × Nat × Nat × Nat × Nat) × DiffState) :
    (let startX := bxIdx * blockSize
     let startY := byIdx * blockSize
     let endX := min (startX + blockSize) img1.width
     let endY := min (startY + blockSize) img1.height
     let blockId := byIdx * blocksX + bxIdx
     if block_has_perceptual_diff_scalar img1 img2 startX startY endX endY maxDelta then
       (acc.1 ++ [(startX, startY, endX, endY, blockId)], acc.2)
     else if hasOut && !diffMask then
       (acc.1, fill_block_gray img1 alpha blockId startX startY endX endY acc.2)
     else acc) =
    (acc.1 ++ (if block_flag img1 img2 maxDelta
        (bxIdx * blockSize, byIdx * blockSize,
          min (bxIdx * blockSize + blockSize) img1.width,
          min (byIdx * blockSize + blockSize) img1.height,
          byIdx * blocksX + bxIdx) = true then
        [(bxIdx * blockSize, byIdx * blockSize,
          min (bxIdx * blockSize + blockSize) img1.width,
          min (byIdx * blockSize + blockSize) img1.height,
          byIdx * blocksX + bxIdx)] else []),
      cold_step img1 img2 hasOut diffMask alpha maxDelta
        (bxIdx * blockSize, byIdx * blockSize,
          min (bxIdx * blockSize + blockSize) img1.width,
          min (byIdx * blockSize + blockSize) img1.height,
          byIdx * blocksX + bxIdx) acc.2) := by
  simp only [cold_step, block_flag]
  by_cases hf : block_has_perceptual_diff_scalar img1 img2 (bxIdx * blockSize)
      (byIdx * blockSize) (min (bxIdx * blockSize + blockSize) img1.width)
      (min (byIdx * blockSize + blockSize) img1.height) maxDelta = true
  · simp [hf]
  · by_cases hg : (hasOut && !diffMask) = true <;> simp [hf, hg]

/-- The cold pass splits into the flagged-block list and the cold-step
state fold, both in raster block order. -/
theorem cold_pass_unfolded (img1 img2 : Image) (hasOut diffMask : Bool)
    (alpha maxDelta : ℚ) (blockSize blocksX blocksY : Nat) (s : DiffState) :
    cold_pass img1 img2 hasOut diffMask alpha maxDelta blockSize blocksX blocksY s =
      (((List.range blocksY).map fun byIdx =>
          (((List.range blocksX).map fun bxIdx =>
            if block_flag img1 img2 maxDelta
                (bxIdx * blockSize, byIdx * blockSize,
                  min (bxIdx * blockSize + blockSize) img1.width,
                  min (byIdx * blockSize + blockSize) img1.height,
                  byIdx * blocksX + bxIdx) = true then
              [(bxIdx * blockSize, byIdx * blockSize,
                min (bxIdx * blockSize + blockSize) img1.width,
                min (byIdx * blockSize + blockSize) img1.height,
                byIdx * blocksX + bxIdx)] else []).flatten)).flatten,
        (List.range blocksY).foldl
          (fun st byIdx => (List.range blocksX).foldl
            (fun st bxIdx => cold_step img1 img2 hasOut diffMask alpha maxDelta
              (bxIdx * blockSize, byIdx * blockSize,
                min (bxIdx * blockSize + blockSize) img1.width,
                min (byIdx * blockSize + blockSize) img1.height,
                byIdx * blocksX + bxIdx) st) st) s) := by
  have hrow : ∀ (byIdx : Nat) (acc : List (Nat × Nat × Nat × Nat × Nat) × DiffState),
      (List.range blocksX).foldl
        (fun acc bxIdx =>
          let startX := bxIdx * blockSize
          let startY := byIdx * blockSize
          let endX := min (startX + blockSize) img1.width
          let endY := min (startY + blockSize) img1.height
          let blockId := byIdx * blocksX + bxIdx
          if block_has_perceptual_diff_scalar img1 img2 startX startY endX endY maxDelta then
            (acc.1 ++ [(startX, startY, endX, endY, blockId)], acc.2)
          else if hasOut && !diffMask then
            (acc.1, fill_block_gray img1 alpha blockId startX startY endX endY acc.2)
          else acc) acc =
      (acc.1 ++ (((List.range blocksX).map fun bxIdx =>
          if block_flag img1 img2 maxDelta
              (bxIdx * blockSize, byIdx * blockSize,
                min (bxIdx * blockSize + blockSize) img1.width,
                min (byIdx * blockSize + blockSize) img1.height,
                byIdx * blocksX + bxIdx) = true then
            [(bxIdx * blockSize, byIdx * blockSize,
              min (bxIdx * blockSize + blockSize) img1.width,
              min (byIdx * blockSize + blockSize) img1.height,
              byIdx * blocksX + bxIdx)] else []).flatten),
        (List.range blocksX).foldl
          (fun st bxIdx => cold_step img1 img2 hasOut diffMask alpha maxDelta
            (bxIdx * blockSize, byIdx * blockSize,
              min (bxIdx * blockSize + blockSize) img1.width,
              min (byIdx * blockSize + blockSize) img1.height,
              byIdx * blocksX + bxIdx) st) acc.2) := by
    intro byIdx acc
    exact foldl_blocks_split _ _ _
      (fun bs bxIdx => cold_visit_eq img1 img2 hasOut diffMask alpha maxDelta
        blockSize blocksX byIdx bxIdx bs)
      (List.range blocksX) acc
  unfold cold_pass
  rw [foldl_blocks_split _
    (fun byIdx => (((List.range blocksX).map fun bxIdx =>
        if block_flag img1 img2 maxDelta
            (bxIdx * blockSize, byIdx * blockSize,
              min (bxIdx * blockSize + blockSize) img1.width,
              min (byIdx * blockSize + blockSize) img1.height,
              byIdx * blocksX + bxIdx) = true then
          [(bxIdx * blockSize, byIdx * blockSize,
            min (bxIdx * blockSize + blockSize) img1.width,
            min (byIdx * blockSize + blockSize) img1.height,
            byIdx * blocksX + bxIdx)] else []).flatten))
    (fun byIdx st => (List.range blocksX).foldl
      (fun st bxIdx => cold_step img1 img2 hasOut diffMask alpha maxDelta
        (bxIdx * blockSize, byIdx * blockSize,
          min (bxIdx * blockSize + blockSize) img1.width,
          min (byIdx * blockSize + blockSize) img1.height,
          byIdx * blocksX + bxIdx) st) st)
    (fun bs byIdx => hrow byIdx bs)
    (List.range blocksY) ([], s)]
  rw [List.nil_append]

/-- The hot pass splits into the sum of per-block counts and the fold of
per-block rectangle paints. -/
theorem hot_pass_split (A : HotArgs) (blocks : List (Nat × Nat × Nat × Nat × Nat))
    (s : DiffState) :
    hot_pass A blocks s =
      ((blocks.map fun blk =>
          ((List.range (blk.2.2.2.1 - blk.2.1)).map fun dy =>
            ((List.range (blk.2.2.1 - blk.1)).map fun dx =>
              hot_cnt A (blk.1 + dx) (blk.2.1 + dy)).sum).sum).sum,
        blocks.foldl (fun s blk =>
          paint_rect A.width blk.1 blk.2.1 blk.2.2.1 blk.2.2.2.1
            (hot_do_write A) (hot_val A) (WriteSrc.hot blk.2.2.2.2) s) s) := by
  unfold hot_pass
  rw [foldl_pair_split _
    (fun blk =>
      ((List.range (blk.2.2.2.1 - blk.2.1)).map fun dy =>
        ((List.range (blk.2.2.1 - blk.1)).map fun dx =>
          hot_cnt A (blk.1 + dx) (blk.2.1 + dy)).sum).sum)
    (fun blk s =>
      paint_rect A.width blk.1 blk.2.1 blk.2.2.1 blk.2.2.2.1
        (hot_do_write A) (hot_val A) (WriteSrc.hot blk.2.2.2.2) s)
    (fun cs blk => by
      rw [process_hot_block_split]
      rfl)
    blocks (0, s)]
  rw [Nat.zero_add]

/-! ## From per-block counts to the whole-image scan -/

theorem sum_flatten_map {α : Type} (F : α → Nat) (L : List (List α)) :
    (L.flatten.map F).sum = (L.map fun l => (l.map F).sum).sum := by
  induction L with
  | nil => rfl
  | cons l t ih =>
    rw [List.flatten_cons, List.map_append, List.sum_append, ih, List.map_cons,
      List.sum_cons]

theorem sum_map_if_singleton {α β : Type} (c : α → Bool) (h : α → β) (F : β → Nat)
    (l : List α) :
    (((l.map fun a => if c a = true then [h a] else []).flatten).map F).sum =
      (l.map fun a => if c a = true then F (h a) else 0).sum := by
  rw [sum_flatten_map, List.map_map]
  apply congrArg
  apply List.map_congr_left
  intro a _
  by_cases hc : c a = true <;> simp [Function.comp, hc]

/-- A block the cold pass left unflagged contains no pixel whose packed
words differ with delta magnitude above the threshold. -/
theorem flag_false_no_exceeds (img1 img2 : Image) (sx sy ex ey : Nat) (maxDelta : ℚ)
    (h : block_has_perceptual_diff_scalar img1 img2 sx sy ex ey maxDelta = false)
    (dy dx : Nat) (hdy : dy < ey - sy) (hdx : dx < ex - sx) :
    ¬(img1.data ((sy + dy) * img1.width + (sx + dx)) ≠
        img2.data ((sy + dy) * img1.width + (sx + dx)) ∧
      maxDelta < |color_delta_f32 (img1.data ((sy + dy) * img1.width + (sx + dx)))
        (img2.data ((sy + dy) * img1.width + (sx + dx)))|) := by
  intro hc
  rw [Bool.eq_false_iff] at h
  apply h
  unfold block_has_perceptual_diff_scalar
  rw [List.any_eq_true]
  refine ⟨dy, List.mem_range.mpr hdy, ?_⟩
  rw [List.any_eq_true]
  refine ⟨dx, List.mem_range.mpr hdx, ?_⟩
  rw [Bool.and_eq_true, bne_iff_ne, decide_eq_true_eq]
  exact hc

/-- The hot-pass count contribution of a pixel is the indicator of the
per-pixel scan predicate. -/
theorem hot_cnt_indicator (A : HotArgs) (x y : Nat) :
    hot_cnt A x y =
      if A.img1.data (y * A.width + x) ≠ A.img2.data (y * A.width + x) ∧
          A.maxDelta < |color_delta_f32 (A.img1.data (y * A.width + x))
            (A.img2.data (y * A.width + x))| ∧
          (A.includeAA = true ∨
            ¬(is_antialiased A.img1 A.img2 x y = true ∨
              is_antialiased A.img2 A.img1 x y = true))
        then 1 else 0 := by
  simp only [hot_cnt]
  by_cases h1 : A.img1.data (y * A.width + x) = A.img2.data (y * A.width + x)
  · rw [if_pos h1, if_neg (fun hc => hc.1 h1)]
  · rw [if_neg h1]
    by_cases h2 : A.maxDelta < |color_delta_f32 (A.img1.data (y * A.width + x))
        (A.img2.data (y * A.width + x))|
    · rw [if_pos h2]
      by_cases h3 : A.includeAA = true
      · rw [if_pos h3, if_pos ⟨h1, h2, Or.inl h3⟩]
      · rw [if_neg h3]
        by_cases h4 : (is_antialiased A.img1 A.img2 x y ||
            is_antialiased A.img2 A.img1 x y) = true
        · rw [if_pos h4, if_neg]
          rintro ⟨_, _, h5 | h5⟩
          · exact h3 h5
          · simp only [Bool.or_eq_true] at h4
            exact h5 h4
        · rw [if_neg h4, if_pos ⟨h1, h2, Or.inr (by
            simp only [Bool.or_eq_true] at h4
            exact h4)⟩]
    · rw [if_neg h2, if_neg (fun hc => h2 hc.2.1)]

/-- Summing a function over the block grid in block order equals summing
it over the whole image in raster order. -/
theorem block_double_sum (W H B : Nat) (hB : 0 < B) (F : Nat → Nat → Nat) :
    ((List.range ((H + B - 1) / B)).map fun byIdx =>
      ((List.range ((W + B - 1) / B)).map fun bxIdx =>
        ((List.range (min (byIdx * B + B) H - byIdx * B)).map fun dy =>
          ((List.range (min (bxIdx * B + B) W - bxIdx * B)).map fun dx =>
            F (bxIdx * B + dx) (byIdx * B + dy)).sum).sum).sum).sum =
    ((List.range H).map fun y => ((List.range W).map fun x => F x y).sum).sum := by
  have hrow : ∀ byIdx : Nat,
      ((List.range ((W + B - 1) / B)).map fun bxIdx =>
        ((List.range (min (byIdx * B + B) H - byIdx * B)).map fun dy =>
          ((List.range (min (bxIdx * B + B) W - bxIdx * B)).map fun dx =>
            F (bxIdx * B + dx) (byIdx * B + dy)).sum).sum).sum =
      ((List.range (min (byIdx * B + B) H - byIdx * B)).map fun dy =>
        ((List.range W).map fun x => F x (byIdx * B + dy)).sum).sum := by
    intro byIdx
    rw [sum_map_comm]
    apply congrArg
    apply List.map_congr_left
    intro dy _
    exact chunk_sum B hB W (fun x => F x (byIdx * B + dy))
  rw [List.map_congr_left fun byIdx _ => hrow byIdx]
  exact chunk_sum B hB H (fun y => ((List.range W).map fun x => F x y).sum)

/-- Summing `F` over a flattened grid of if-singleton lists equals the
unconditional grid sum, whenever `F` vanishes where the condition fails. -/
theorem sum_changed_generic {β : Type} (c : Nat → Nat → Bool) (h : Nat → Nat → β)
    (F : β → Nat) (hz : ∀ j i, c j i = false → F (h j i) = 0) (m n : Nat) :
    ((((List.range m).map fun j =>
        (((List.range n).map fun i =>
          if c j i = true then [h j i] else []).flatten)).flatten).map F).sum =
    ((List.range m).map fun j => ((List.range n).map fun i => F (h j i)).sum).sum := by
  rw [sum_flatten_map, List.map_map]
  apply congrArg
  apply List.map_congr_left
  intro j _
  simp only [Function.comp]
  rw [sum_map_if_singleton (c j) (h j) F]
  apply congrArg
  apply List.map_congr_left
  intro i _
  by_cases hc : c j i = true
  · rw [if_pos hc]
  · rw [if_neg hc]
    exact (hz j i (Bool.eq_false_iff.mpr hc)).symm

/-- A block the cold pass leaves unflagged contributes no hot count. -/
theorem block_cnt_sum_zero (img1 img2 : Image) (options : DiffOptions) (hasOut : Bool)
    (blk : Nat × Nat × Nat × Nat × Nat)
    (hf : block_flag img1 img2 (threshold_to_max_delta options.threshold) blk = false) :
    block_cnt_sum (hot_args img1 img2 hasOut options) blk = 0 := by
  unfold block_cnt_sum
  have hz : ∀ dy ∈ List.range (blk.2.2.2.1 - blk.2.1),
      ((List.range (blk.2.2.1 - blk.1)).map fun dx =>
        hot_cnt (hot_args img1 img2 hasOut options) (blk.1 + dx) (blk.2.1 + dy)).sum = 0 := by
    intro dy hdy
    have hz2 : ∀ dx ∈ List.range (blk.2.2.1 - blk.1),
        hot_cnt (hot_args img1 img2 hasOut options) (blk.1 + dx) (blk.2.1 + dy) = 0 := by
      intro dx hdx
      rw [hot_cnt_indicator, if_neg]
      rintro ⟨hne, hlt, _⟩
      exact flag_false_no_exceeds img1 img2 blk.1 blk.2.1 blk.2.2.1 blk.2.2.2.1
        (threshold_to_max_delta options.threshold) hf dy dx (List.mem_range.mp hdy)
        (List.mem_range.mp hdx) ⟨hne, hlt⟩
    rw [List.map_congr_left hz2, sum_map_zero]
  rw [List.map_congr_left hz, sum_map_zero]

/-- Per-pixel hot counts over the whole grid reproduce the reference
whole-image scan. -/
theorem hot_cnt_grid_eq_scan (img1 img2 : Image) (options : DiffOptions)
    (hasOut : Bool) :
    ((List.range img1.height).map fun y => ((List.range img1.width).map fun x =>
      hot_cnt (hot_args img1 img2 hasOut options) x y).sum).sum =
    scan_diff_count img1 img2 options := by
  unfold scan_diff_count
  apply congrArg
  apply List.map_congr_left
  intro y _
  apply congrArg
  apply List.map_congr_left
  intro x _
  rw [hot_cnt_indicator]
  rfl

/-- The total hot-pass count over the flagged blocks equals the
whole-image per-pixel scan count: unflagged blocks contribute nothing, so
the block tiling and cold-pass rejection never change the count. -/
theorem changed_sum_eq_scan (img1 img2 : Image) (options : DiffOptions)
    (hasOut : Bool) (blockSize : Nat) (hB : 0 < blockSize) :
    ((changed_blocks_list img1 img2 (threshold_to_max_delta options.threshold)
        blockSize ((img1.width + blockSize - 1) / blockSize)
        ((img1.height + blockSize - 1) / blockSize)).map
      (block_cnt_sum (hot_args img1 img2 hasOut options))).sum =
    scan_diff_count img1 img2 options := by
  have h1 : ((changed_blocks_list img1 img2 (threshold_to_max_delta options.threshold)
        blockSize ((img1.width + blockSize - 1) / blockSize)
        ((img1.height + blockSize - 1) / blockSize)).map
      (block_cnt_sum (hot_args img1 img2 hasOut options))).sum =
      ((List.range ((img1.height + blockSize - 1) / blockSize)).map fun j =>
        ((List.range ((img1.width + blockSize - 1) / blockSize)).map fun i =>
          block_cnt_sum (hot_args img1 img2 hasOut options)
            (blk_tuple img1.width img1.height blockSize
              ((img1.width + blockSize - 1) / blockSize) j i)).sum).sum :=
    sum_changed_generic
      (fun j i => block_flag img1 img2 (threshold_to_max_delta options.threshold)
        (blk_tuple img1.width img1.height blockSize
          ((img1.width + blockSize - 1) / blockSize) j i))
      (fun j i => blk_tuple img1.width img1.height blockSize
        ((img1.width + blockSize - 1) / blockSize) j i)
      (block_cnt_sum (hot_args img1 img2 hasOut options))
      (fun j i hf => block_cnt_sum_zero img1 img2 options hasOut _ hf)
      ((img1.height + blockSize - 1) / blockSize)
      ((img1.width + blockSize - 1) / blockSize)
  have h2 : ((List.range ((img1.height + blockSize - 1) / blockSize)).map fun j =>
        ((List.range ((img1.width + blockSize - 1) / blockSize)).map fun i =>
          block_cnt_sum (hot_args img1 img2 hasOut options)
            (blk_tuple img1.width img1.height blockSize
              ((img1.width + blockSize - 1) / blockSize) j i)).sum).sum =
      ((List.range img1.height).map fun y => ((List.range img1.width).map fun x =>
        hot_cnt (hot_args img1 img2 hasOut options) x y).sum).sum :=
    block_double_sum img1.width img1.height blockSize hB
      (fun x y => hot_cnt (hot_args img1 img2 hasOut options) x y)
  exact h1.trans (h2.trans (hot_cnt_grid_eq_scan img1 img2 options hasOut))

/-- Identical pixel data makes the reference whole-image scan zero: its
indicator requires the packed words to differ. -/
theorem scan_self_zero (img1 img2 : Image) (options : DiffOptions)
    (hdata : img1.data = img2.data) :
    scan_diff_count img1 img2 options = 0 := by
  unfold scan_diff_count
  simp [hdata]

/-- The block list returned by the cold pass is `changed_blocks_list`. -/
theorem cold_pass_blocks (img1 img2 : Image) (hasOut diffMask : Bool)
    (alpha maxDelta : ℚ) (blockSize blocksX blocksY : Nat) (s : DiffState) :
    (cold_pass img1 img2 hasOut diffMask alpha maxDelta blockSize blocksX blocksY s).1 =
      changed_blocks_list img1 img2 maxDelta blockSize blocksX blocksY := by
  rw [cold_pass_unfolded]
  rfl

/-- The count returned by the hot pass is the sum of the per-block count
sums. -/
theorem hot_pass_count (A : HotArgs) (blocks : List (Nat × Nat × Nat × Nat × Nat))
    (s : DiffState) :
    (hot_pass A blocks s).1 = (blocks.map (block_cnt_sum A)).sum := by
  rw [hot_pass_split]
  rfl

/-- The driver's result on the success path: for same-size images, any
block size, and an alias flag that is honest about the data, `diff`
returns exactly the whole-image scan count (and the percentage and
identical flag derived from it). -/
theorem diff_eq_scan (img1 img2 : Image) (hasOut : Bool) (out0 : Nat → Nat)
    (options : DiffOptions) (aliased : Bool) (blockSize : Nat)
    (hw : img1.width = img2.width) (hh : img1.height = img2.height)
    (hB : 0 < blockSize) (hal : aliased = true → img1.data = img2.data) :
    (diff img1 img2 hasOut out0 options aliased blockSize).1 =
      Except.ok (DiffResult.new (scan_diff_count img1 img2 options)
        (img1.width * img1.height)) := by
  unfold diff
  rw [if_neg (by push_neg; exact ⟨hw, hh⟩)]
  by_cases ha : aliased = true
  · rw [if_pos ha, scan_self_zero img1 img2 options (hal ha)]
  · rw [if_neg ha]
    dsimp only
    rw [cold_pass_blocks]
    by_cases he : (changed_blocks_list img1 img2
        (threshold_to_max_delta options.threshold) blockSize
        ((img1.width + blockSize - 1) / blockSize)
        ((img1.height + blockSize - 1) / blockSize)).isEmpty = true
    · rw [if_pos he]
      have hnil := List.isEmpty_iff.mp he
      have hscan : scan_diff_count img1 img2 options = 0 := by
        rw [← changed_sum_eq_scan img1 img2 options hasOut blockSize hB, hnil]
        rfl
      rw [hscan]
    · rw [if_neg he, hot_pass_count,
        changed_sum_eq_scan img1 img2 options hasOut blockSize hB]


/-- The diff count of a successful run equals the whole-image scan
count. -/
theorem diffCount_eq_scan (img1 img2 : Image) (hasOut : Bool) (out0 : Nat → Nat)
    (options : DiffOptions) (aliased : Bool) (blockSize : Nat)
    (hw : img1.width = img2.width) (hh : img1.height = img2.height)
    (hB : 0 < blockSize) (hal : aliased = true → img1.data = img2.data) :
    diffCountOf (diff img1 img2 hasOut out0 options aliased blockSize) =
      scan_diff_count img1 img2 options := by
  unfold diffCountOf
  rw [diff_eq_scan img1 img2 hasOut out0 options aliased blockSize hw hh hB hal]
  rfl

/-- The identical flag of a successful run tests the whole-image scan
count for zero. -/
theorem identical_eq_scan (img1 img2 : Image) (hasOut : Bool) (out0 : Nat → Nat)
    (options : DiffOptions) (aliased : Bool) (blockSize : Nat)
    (hw : img1.width = img2.width) (hh : img1.height = img2.height)
    (hB : 0 < blockSize) (hal : aliased = true → img1.data = img2.data) :
    identicalOf (diff img1 img2 hasOut out0 options aliased blockSize) =
      (scan_diff_count img1 img2 options == 0) := by
  unfold identicalOf
  rw [diff_eq_scan img1 img2 hasOut out0 options aliased blockSize hw hh hB hal]
  rfl

/-- C1: for every pair of same-size images, every options value, every
positive block size, and an alias flag that is honest about the pixel
data, the two-pass block-tiled diff returns exactly the result of the
whole-image per-pixel scan — the same diff_count, and therefore the same
diff_percentage and identical flag (both are computed from the count by
`DiffResult.new`): block tiling plus cold-pass rejection never changes the
result. -/
theorem c1_tiled_diff_equals_scan (img1 img2 : Image) (hasOut : Bool)
    (out0 : Nat → Nat) (options : DiffOptions) (aliased : Bool) (blockSize : Nat)
    (hw : img1.width = img2.width) (hh : img1.height = img2.height)
    (hB : 0 < blockSize) (hal : aliased = true → img1.data = img2.data) :
    (diff img1 img2 hasOut out0 options aliased blockSize).1 =
      Except.ok (DiffResult.new (scan_diff_count img1 img2 options)
        (img1.width * img1.height)) :=
  diff_eq_scan img1 img2 hasOut out0 options aliased blockSize hw hh hB hal

/-- C1 witness: a concrete 2x2 run (one exceeding pixel, block size 8). -/
theorem c1_witness :
    (diff imgW1 imgW2 true imgW1.data optsW false 8).1 =
      Except.ok (DiffResult.new (scan_diff_count imgW1 imgW2 optsW)
        (imgW1.width * imgW1.height)) :=
  c1_tiled_diff_equals_scan imgW1 imgW2 true imgW1.data optsW false 8 rfl rfl
    (by decide) (fun h => Bool.noConfusion h)


/-- The whole-image scan is symmetric in its two images: the difference
test, the delta magnitude and the bidirectional AA test are all
symmetric. -/
theorem scan_swap (img1 img2 : Image) (options : DiffOptions)
    (hw : img1.width = img2.width) (hh : img1.height = img2.height) :
    scan_diff_count img1 img2 options = scan_diff_count img2 img1 options := by
  unfold scan_diff_count
  rw [← hw, ← hh]
  apply congrArg
  apply List.map_congr_left
  intro y _
  apply congrArg
  apply List.map_congr_left
  intro x _
  dsimp only
  apply if_congr ?_ rfl rfl
  constructor
  · rintro ⟨h1, h2, h3⟩
    refine ⟨fun hc => h1 hc.symm, ?_, ?_⟩
    · rw [← abs_color_delta_swap]
      exact h2
    · tauto
  · rintro ⟨h1, h2, h3⟩
    refine ⟨fun hc => h1 hc.symm, ?_, ?_⟩
    · rw [← abs_color_delta_swap]
      exact h2
    · tauto

/-- C7: swapping the two input images never changes the numeric result —
for same-size images, any options, any positive block size and an alias
flag honest about the data, the diff counts and the identical flags of
the two runs agree (nothing is claimed about the painted buffers). -/
theorem c7_swap_invariant (img1 img2 : Image) (hasOut : Bool) (out0 : Nat → Nat)
    (options : DiffOptions) (aliased : Bool) (blockSize : Nat)
    (hw : img1.width = img2.width) (hh : img1.height = img2.height)
    (hB : 0 < blockSize) (hal : aliased = true → img1.data = img2.data) :
    diffCountOf (diff img1 img2 hasOut out0 options aliased blockSize) =
      diffCountOf (diff img2 img1 hasOut out0 options aliased blockSize) ∧
    identicalOf (diff img1 img2 hasOut out0 options aliased blockSize) =
      identicalOf (diff img2 img1 hasOut out0 options aliased blockSize) := by
  rw [diffCount_eq_scan img1 img2 hasOut out0 options aliased blockSize hw hh hB hal,
    diffCount_eq_scan img2 img1 hasOut out0 options aliased blockSize hw.symm hh.symm hB
      (fun h => (hal h).symm),
    identical_eq_scan img1 img2 hasOut out0 options aliased blockSize hw hh hB hal,
    identical_eq_scan img2 img1 hasOut out0 options aliased blockSize hw.symm hh.symm hB
      (fun h => (hal h).symm),
    scan_swap img1 img2 options hw hh]
  exact ⟨rfl, rfl⟩

/-- C7 witness: the concrete 2x2 pair in both orders. -/
theorem c7_witness :
    diffCountOf (diff imgW1 imgW2 true imgW1.data optsW false 8) =
      diffCountOf (diff imgW2 imgW1 true imgW1.data optsW false 8) ∧
    identicalOf (diff imgW1 imgW2 true imgW1.data optsW false 8) =
      identicalOf (diff imgW2 imgW1 true imgW1.data optsW false 8) :=
  c7_swap_invariant imgW1 imgW2 true imgW1.data optsW false 8 rfl rfl
    (by decide) (fun h => Bool.noConfusion h)


/-- Pointwise bounds add up over a mapped list. -/
theorem sum_map_le_sum_map {α : Type} (f g : α → Nat) (l : List α)
    (h : ∀ a ∈ l, f a ≤ g a) : (l.map f).sum ≤ (l.map g).sum := by
  induction l with
  | nil => exact Nat.zero_le _
  | cons a t ih =>
    rw [List.map_cons, List.sum_cons, List.map_cons, List.sum_cons]
    exact Nat.add_le_add (h a (List.mem_cons_self a t))
      (ih fun b hb => h b (List.mem_cons_of_mem a hb))

/-- A mapped sum of values bounded by `k` is at most `length · k`. -/
theorem sum_map_le_mul {α : Type} (f : α → Nat) (k : Nat) (l : List α)
    (h : ∀ a ∈ l, f a ≤ k) : (l.map f).sum ≤ l.length * k := by
  induction l with
  | nil => exact Nat.zero_le _
  | cons a t ih =>
    rw [List.map_cons, List.sum_cons, List.length_cons, Nat.succ_mul, Nat.add_comm (t.length * k)]
    exact Nat.add_le_add (h a (List.mem_cons_self a t))
      (ih fun b hb => h b (List.mem_cons_of_mem a hb))

/-- The whole-image scan count never exceeds the pixel count. -/
theorem scan_le_total (img1 img2 : Image) (options : DiffOptions) :
    scan_diff_count img1 img2 options ≤ img1.width * img1.height := by
  unfold scan_diff_count
  have h1 : ((List.range img1.height).map fun y =>
      ((List.range img1.width).map fun x =>
        let i := y * img1.width + x
        let pa := img1.data i
        let pb := img2.data i
        if pa ≠ pb ∧ threshold_to_max_delta options.threshold < |color_delta_f32 pa pb| ∧
            (options.includeAA = true ∨
              ¬(is_antialiased img1 img2 x y = true ∨ is_antialiased img2 img1 x y = true))
          then 1 else 0).sum).sum ≤ (List.range img1.height).length * img1.width := by
    apply sum_map_le_mul
    intro y _
    have h2 := sum_map_le_mul
      (fun x =>
        let i := y * img1.width + x
        let pa := img1.data i
        let pb := img2.data i
        if pa ≠ pb ∧ threshold_to_max_delta options.threshold < |color_delta_f32 pa pb| ∧
            (options.includeAA = true ∨
              ¬(is_antialiased img1 img2 x y = true ∨ is_antialiased img2 img1 x y = true))
          then 1 else 0) 1 (List.range img1.width)
      (fun x _ => by dsimp only; split <;> omega)
    rw [List.length_range, Nat.mul_one] at h2
    exact h2
  rw [List.length_range, Nat.mul_comm] at h1
  exact h1

/-- `max_delta = 35215·t²` is monotone on nonnegative thresholds. -/
theorem max_delta_mono (t1 t2 : ℚ) (h0 : 0 ≤ t1) (h : t1 ≤ t2) :
    threshold_to_max_delta t1 ≤ threshold_to_max_delta t2 := by
  unfold threshold_to_max_delta
  nlinarith [mul_self_nonneg (t2 - t1)]

/-- Raising the threshold can only shrink the whole-image scan count, as
long as `include_aa` is unchanged (the AA classifier itself never reads
the threshold). -/
theorem scan_threshold_antitone (img1 img2 : Image) (o1 o2 : DiffOptions)
    (hinc : o2.includeAA = o1.includeAA) (ht0 : 0 ≤ o1.threshold)
    (ht : o1.threshold ≤ o2.threshold) :
    scan_diff_count img1 img2 o2 ≤ scan_diff_count img1 img2 o1 := by
  unfold scan_diff_count
  apply sum_map_le_sum_map
  intro y _
  apply sum_map_le_sum_map
  intro x _
  dsimp only
  by_cases hc : img1.data (y * img1.width + x) ≠ img2.data (y * img1.width + x) ∧
      threshold_to_max_delta o2.threshold <
        |color_delta_f32 (img1.data (y * img1.width + x))
          (img2.data (y * img1.width + x))| ∧
      (o2.includeAA = true ∨
        ¬(is_antialiased img1 img2 x y = true ∨ is_antialiased img2 img1 x y = true))
  · rw [if_pos hc, if_pos ⟨hc.1,
      lt_of_le_of_lt (max_delta_mono o1.threshold o2.threshold ht0 ht) hc.2.1,
      by rw [← hinc]; exact hc.2.2⟩]
  · rw [if_neg hc]
    split <;> omega

/-- C8: the diff count is at most `W·H`, and raising the threshold (with
`include_aa` unchanged) never increases it — for same-size images, any
positive block size and an alias flag honest about the data. -/
theorem c8_bound_and_antitone (img1 img2 : Image) (hasOut : Bool) (out0 : Nat → Nat)
    (o1 o2 : DiffOptions) (aliased : Bool) (blockSize : Nat)
    (hw : img1.width = img2.width) (hh : img1.height = img2.height)
    (hB : 0 < blockSize) (hal : aliased = true → img1.data = img2.data)
    (hinc : o2.includeAA = o1.includeAA) (ht0 : 0 ≤ o1.threshold)
    (ht : o1.threshold ≤ o2.threshold) :
    diffCountOf (diff img1 img2 hasOut out0 o1 aliased blockSize) ≤
      img1.width * img1.height ∧
    diffCountOf (diff img1 img2 hasOut out0 o2 aliased blockSize) ≤
      diffCountOf (diff img1 img2 hasOut out0 o1 aliased blockSize) := by
  rw [diffCount_eq_scan img1 img2 hasOut out0 o1 aliased blockSize hw hh hB hal,
    diffCount_eq_scan img1 img2 hasOut out0 o2 aliased blockSize hw hh hB hal]
  exact ⟨scan_le_total img1 img2 o1,
    scan_threshold_antitone img1 img2 o1 o2 hinc ht0 ht⟩

/-- C8 witness: the concrete 2x2 pair at thresholds 0.1 and 0.3. -/
theorem c8_witness :
    diffCountOf (diff imgW1 imgW2 true imgW1.data optsW false 8) ≤
      imgW1.width * imgW1.height ∧
    diffCountOf (diff imgW1 imgW2 true imgW1.data optsWhi false 8) ≤
      diffCountOf (diff imgW1 imgW2 true imgW1.data optsW false 8) :=
  c8_bound_and_antitone imgW1 imgW2 true imgW1.data optsW optsWhi false 8 rfl rfl
    (by decide) (fun h => Bool.noConfusion h) rfl (by decide) (by decide)


/-- C5: `diff` fails exactly on a width or height mismatch, and on that
path it returns the error before touching the output: the final state
carries the caller's buffer unchanged and an empty write trace (so not
even the `diff_mask` transparent clear ran).  On matching sizes the
result is always a success value. -/
theorem c5_size_mismatch_only (img1 img2 : Image) (hasOut : Bool) (out0 : Nat → Nat)
    (options : DiffOptions) (aliased : Bool) (blockSize : Nat) :
    ((img1.width ≠ img2.width ∨ img1.height ≠ img2.height) →
      diff img1 img2 hasOut out0 options aliased blockSize =
        (Except.error (DiffError.sizeMismatch img1.width img1.height
          img2.width img2.height), ⟨out0, []⟩)) ∧
    (img1.width = img2.width → img1.height = img2.height →
      ∃ r, (diff img1 img2 hasOut out0 options aliased blockSize).1 =
        Except.ok r) := by
  constructor
  · intro h
    unfold diff
    rw [if_pos h]
  · intro hw hh
    unfold diff
    rw [if_neg (by push_neg; exact ⟨hw, hh⟩)]
    by_cases ha : aliased = true
    · rw [if_pos ha]
      exact ⟨_, rfl⟩
    · rw [if_neg ha]
      dsimp only
      by_cases he : (cold_pass img1 img2 hasOut options.diffMask options.alpha
          (threshold_to_max_delta options.threshold) blockSize
          ((img1.width + blockSize - 1) / blockSize)
          ((img1.height + blockSize - 1) / blockSize)
          (if (hasOut && options.diffMask) = true then
            clear_transparent (img1.width * img1.height) ⟨out0, []⟩
          else ⟨out0, []⟩)).1.isEmpty = true
      · rw [if_pos he]
        exact ⟨_, rfl⟩
      · rw [if_neg he]
        exact ⟨_, rfl⟩

/-- C5 witness: a 2x2 against a 1x1 image errors with the sizes and an
untouched state; the same-size 2x2 pair succeeds. -/
theorem c5_witness :
    diff imgW1 imgB1 true imgW1.data optsW false 8 =
      (Except.error (DiffError.sizeMismatch imgW1.width imgW1.height
        imgB1.width imgB1.height), ⟨imgW1.data, []⟩) ∧
    ∃ r, (diff imgW1 imgW2 true imgW1.data optsW false 8).1 = Except.ok r :=
  ⟨(c5_size_mismatch_only imgW1 imgB1 true imgW1.data optsW false 8).1
      (Or.inl (by decide)),
    (c5_size_mismatch_only imgW1 imgW2 true imgW1.data optsW false 8).2 rfl rfl⟩


/-- A fold whose step is the identity returns its start state. -/
theorem foldl_id {σ α : Type} (l : List α) (f : σ → α → σ)
    (h : ∀ s a, f s a = s) (s : σ) : l.foldl f s = s := by
  induction l generalizing s with
  | nil => rfl
  | cons a t ih => rw [List.foldl_cons, h]; exact ih s

/-- A fold preserves an invariant its step preserves. -/
theorem foldl_pres {σ α : Type} (P : σ → Prop) (f : σ → α → σ) (l : List α)
    (h : ∀ s a, P s → P (f s a)) (s : σ) (hs : P s) : P (l.foldl f s) := by
  induction l generalizing s with
  | nil => exact hs
  | cons a t ih => exact ih (f s a) (h s a hs)

/-- A fold over `range n` satisfies any invariant that one visited index
establishes unconditionally and every step preserves. -/
theorem foldl_range_establish {σ : Type} (P : σ → Prop) (f : σ → Nat → σ)
    (n m : Nat) (hm : m < n) (hpres : ∀ s a, P s → P (f s a))
    (hest : ∀ s, P (f s m)) (s0 : σ) : P ((List.range n).foldl f s0) := by
  induction n with
  | zero => omega
  | succ k ih =>
    rw [List.range_succ, List.foldl_append, List.foldl_cons, List.foldl_nil]
    by_cases hmk : m = k
    · subst hmk
      exact hest _
    · exact hpres _ _ (ih (by omega))

/-- Crossing a strict bound survives ceiling division. -/
theorem div_lt_ceil (a n B : Nat) (hB : 0 < B) (ha : a < n) :
    a / B < (n + B - 1) / B := by
  have h1 : n + B - 1 = (n - 1) + B := by omega
  rw [h1, Nat.add_div_right _ hB]
  exact Nat.lt_succ_of_le (Nat.div_le_div_right (by omega))

/-- Final buffer contents of the cold gray block fill: inside the block
the desaturated source pixel, outside it the previous contents. -/
theorem fill_block_gray_out (source : Image) (alpha : ℚ) (b sx sy ex ey : Nat)
    (hW : 0 < source.width) (hex : ex ≤ source.width) (s : DiffState) (i : Nat) :
    (fill_block_gray source alpha b sx sy ex ey s).out i =
      if sx ≤ i % source.width ∧ i % source.width < ex ∧
          sy ≤ i / source.width ∧ i / source.width < ey then
        pack_gray_pixel (compute_gray_f32_fast (source.data i) (alpha * (1 / 255)))
      else s.out i := by
  rw [fill_block_gray_eq, paint_rect_out _ _ _ _ _ _ _ _ hW hex]
  by_cases hc : sx ≤ i % source.width ∧ i % source.width < ex ∧
      sy ≤ i / source.width ∧ i / source.width < ey
  · rw [if_pos ⟨hc.1, hc.2.1, hc.2.2.1, hc.2.2.2, rfl⟩, if_pos hc]
    have hid : i / source.width * source.width + i % source.width = i := by
      rw [Nat.mul_comm]
      exact Nat.div_add_mod i source.width
    rw [hid]
  · rw [if_neg (fun hfull => hc ⟨hfull.1, hfull.2.1, hfull.2.2.1, hfull.2.2.2.1⟩),
      if_neg hc]

/-- Against itself, no block has a perceptual difference. -/
theorem block_pred_self_false (img : Image) (sx sy ex ey : Nat) (maxDelta : ℚ) :
    block_has_perceptual_diff_scalar img img sx sy ex ey maxDelta = false := by
  unfold block_has_perceptual_diff_scalar
  simp

/-- Against itself, the cold pass records no changed blocks. -/
theorem changed_blocks_self_nil (img : Image) (maxDelta : ℚ) (B bX bY : Nat) :
    changed_blocks_list img img maxDelta B bX bY = [] := by
  unfold changed_blocks_list
  have h : ∀ byIdx ∈ List.range bY,
      (((List.range bX).map fun bxIdx =>
        if block_flag img img maxDelta
            (blk_tuple img.width img.height B bX byIdx bxIdx) = true then
          [blk_tuple img.width img.height B bX byIdx bxIdx]
        else []).flatten) = ([] : List (Nat × Nat × Nat × Nat × Nat)) := by
    intro byIdx _
    have h2 : ∀ bxIdx ∈ List.range bX,
        (if block_flag img img maxDelta
            (blk_tuple img.width img.height B bX byIdx bxIdx) = true then
          [blk_tuple img.width img.height B bX byIdx bxIdx]
        else []) = ([] : List (Nat × Nat × Nat × Nat × Nat)) := by
      intro bxIdx _
      rw [if_neg]
      exact Bool.eq_false_iff.mp (block_pred_self_false img _ _ _ _ maxDelta)
    rw [List.map_congr_left h2]
    simp
  rw [List.map_congr_left h]
  simp

/-- The state returned by the cold pass, as the nested block fold. -/
theorem cold_pass_state (img1 img2 : Image) (hasOut diffMask : Bool)
    (alpha maxDelta : ℚ) (blockSize blocksX blocksY : Nat) (s : DiffState) :
    (cold_pass img1 img2 hasOut diffMask alpha maxDelta blockSize blocksX blocksY s).2 =
      (List.range blocksY).foldl
        (fun st byIdx => (List.range blocksX).foldl
          (fun st bxIdx => cold_step img1 img2 hasOut diffMask alpha maxDelta
            (bxIdx * blockSize, byIdx * blockSize,
              min (bxIdx * blockSize + blockSize) img1.width,
              min (byIdx * blockSize + blockSize) img1.height,
              byIdx * blocksX + bxIdx) st) st) s := by
  rw [cold_pass_unfolded]

/-- In mask mode the cold pass leaves the state untouched. -/
theorem cold_step_mask_id (img1 img2 : Image) (alpha maxDelta : ℚ)
    (blk : Nat × Nat × Nat × Nat × Nat) (st : DiffState) :
    cold_step img1 img2 true true alpha maxDelta blk st = st := by
  unfold cold_step
  split
  · rfl
  · rw [if_neg (by decide)]

/-- A cold-pass step over a self-diff preserves the desaturated value at
any pixel. -/
theorem cold_step_self_pres (img : Image) (alpha maxDelta : ℚ)
    (blk : Nat × Nat × Nat × Nat × Nat) (hW : 0 < img.width)
    (hex : blk.2.2.1 ≤ img.width) (st : DiffState) (i : Nat)
    (h : st.out i =
      pack_gray_pixel (compute_gray_f32_fast (img.data i) (alpha * (1 / 255)))) :
    (cold_step img img true false alpha maxDelta blk st).out i =
      pack_gray_pixel (compute_gray_f32_fast (img.data i) (alpha * (1 / 255))) := by
  unfold cold_step
  by_cases hf : block_flag img img maxDelta blk = true
  · rw [if_pos hf]
    exact h
  · rw [if_neg hf, if_pos (show (true && !false) = true from rfl),
      fill_block_gray_out img alpha blk.2.2.2.2 blk.1 blk.2.1 blk.2.2.1 blk.2.2.2.1
        hW hex st i]
    split
    · rfl
    · exact h

/-- The cold-pass step on the block containing pixel `i` writes the
desaturated value there, whatever the incoming state. -/
theorem cold_step_self_est (img : Image) (alpha maxDelta : ℚ) (B bX : Nat)
    (hB : 0 < B) (i : Nat) (hW : 0 < img.width) (hx : i % img.width < img.width)
    (hy : i / img.width < img.height) (byIdx bxIdx : Nat)
    (hbx : bxIdx = i % img.width / B) (hby : byIdx = i / img.width / B)
    (st : DiffState) :
    (cold_step img img true false alpha maxDelta
      (bxIdx * B, byIdx * B, min (bxIdx * B + B) img.width,
        min (byIdx * B + B) img.height, byIdx * bX + bxIdx) st).out i =
      pack_gray_pixel (compute_gray_f32_fast (img.data i) (alpha * (1 / 255))) := by
  subst hbx hby
  unfold cold_step
  have hf : block_flag img img maxDelta
      (i % img.width / B * B, i / img.width / B * B,
        min (i % img.width / B * B + B) img.width,
        min (i / img.width / B * B + B) img.height,
        i / img.width / B * bX + i % img.width / B) = false :=
    block_pred_self_false img _ _ _ _ maxDelta
  rw [if_neg (Bool.eq_false_iff.mp hf), if_pos (show (true && !false) = true from rfl),
    fill_block_gray_out img alpha _ _ _ _ _ hW (Nat.min_le_right _ _) st i]
  rw [if_pos ?_]
  refine ⟨Nat.div_mul_le_self _ _, Nat.lt_min.mpr ⟨?_, hx⟩,
    Nat.div_mul_le_self _ _, Nat.lt_min.mpr ⟨?_, hy⟩⟩
  · have hdm := Nat.div_add_mod (i % img.width) B
    have hmod := Nat.mod_lt (i % img.width) hB
    rw [Nat.mul_comm]
    omega
  · have hdm := Nat.div_add_mod (i / img.width) B
    have hmod := Nat.mod_lt (i / img.width) hB
    rw [Nat.mul_comm]
    omega

/-- The self-diff cold pass desaturates every pixel of the image. -/
theorem cold_fill_covers (img : Image) (alpha maxDelta : ℚ) (B : Nat) (hB : 0 < B)
    (s : DiffState) (i : Nat) (hi : i < img.width * img.height) :
    ((List.range ((img.height + B - 1) / B)).foldl
      (fun st byIdx => (List.range ((img.width + B - 1) / B)).foldl
        (fun st bxIdx => cold_step img img true false alpha maxDelta
          (bxIdx * B, byIdx * B, min (bxIdx * B + B) img.width,
            min (byIdx * B + B) img.height,
            byIdx * ((img.width + B - 1) / B) + bxIdx) st) st) s).out i =
      pack_gray_pixel (compute_gray_f32_fast (img.data i) (alpha * (1 / 255))) := by
  have hW : 0 < img.width := by
    rcases Nat.eq_zero_or_pos img.width with h | h
    · rw [h, Nat.zero_mul] at hi
      omega
    · exact h
  have hx : i % img.width < img.width := Nat.mod_lt _ hW
  have hy : i / img.width < img.height := by
    rw [Nat.div_lt_iff_lt_mul hW]
    rw [Nat.mul_comm] at hi
    exact hi
  refine foldl_range_establish
    (fun st => st.out i =
      pack_gray_pixel (compute_gray_f32_fast (img.data i) (alpha * (1 / 255))))
    _ _ (i / img.width / B) (div_lt_ceil _ _ _ hB hy) ?_ ?_ s
  · intro st a hst
    exact foldl_pres _ _ _
      (fun st2 a2 hst2 =>
        cold_step_self_pres img alpha maxDelta _ hW (Nat.min_le_right _ _) st2 i hst2)
      st hst
  · intro st
    refine foldl_range_establish
      (fun st => st.out i =
        pack_gray_pixel (compute_gray_f32_fast (img.data i) (alpha * (1 / 255))))
      _ _ (i % img.width / B) (div_lt_ceil _ _ _ hB hx) ?_ ?_ st
    · intro st2 a2 hst2
      exact cold_step_self_pres img alpha maxDelta _ hW (Nat.min_le_right _ _) st2 i hst2
    · intro st2
      exact cold_step_self_est img alpha maxDelta B _ hB i hW hx hy _ _ rfl rfl st2


/-- C6: self-diff is the identity round-trip — for every image, options
value, alias flag and positive block size, `diff(A, A, …)` reports count 0
(hence identical, zero percentage), and with an output buffer every pixel
of the buffer holds the desaturation of the source when `diff_mask` is
off, or the fully transparent pixel when `diff_mask` is on; this holds
both on the pointer-alias shortcut and on equal-content copies. -/
theorem c6_self_diff_round_trip (img : Image) (hasOut : Bool) (out0 : Nat → Nat)
    (options : DiffOptions) (aliased : Bool) (blockSize : Nat) (hB : 0 < blockSize) :
    (diff img img hasOut out0 options aliased blockSize).1 =
      Except.ok (DiffResult.new 0 (img.width * img.height)) ∧
    (hasOut = true → ∀ i, i < img.width * img.height →
      (diff img img hasOut out0 options aliased blockSize).2.out i =
        if options.diffMask then 0
        else pack_gray_pixel
          (compute_gray_f32_fast (img.data i) (options.alpha * (1 / 255)))) := by
  constructor
  · rw [diff_eq_scan img img hasOut out0 options aliased blockSize rfl rfl hB
      (fun _ => rfl), scan_self_zero img img options rfl]
  · intro hOut i hi
    subst hOut
    have hW : 0 < img.width := by
      rcases Nat.eq_zero_or_pos img.width with h | h
      · rw [h, Nat.zero_mul] at hi
        omega
      · exact h
    have hy : i / img.width < img.height := by
      rw [Nat.div_lt_iff_lt_mul hW]
      rw [Nat.mul_comm] at hi
      exact hi
    unfold diff
    rw [if_neg (by push_neg; exact ⟨rfl, rfl⟩)]
    by_cases hm : options.diffMask = true
    · rw [hm]
      by_cases ha : aliased = true
      · rw [if_pos ha]
        dsimp only
        rw [if_neg (show ¬((true && !true) = true) from by decide),
          if_pos (show (true && true) = true from rfl), clear_out, if_pos hi,
          if_pos (show (true : Bool) = true from rfl)]
      · rw [if_neg ha]
        dsimp only
        rw [cold_pass_blocks, changed_blocks_self_nil,
          if_pos (show List.isEmpty ([] : List (Nat × Nat × Nat × Nat × Nat)) = true
            from rfl)]
        dsimp only
        rw [cold_pass_state]
        have hid : ∀ (st : DiffState) (byIdx : Nat),
            (List.range ((img.width + blockSize - 1) / blockSize)).foldl
              (fun st2 bxIdx => cold_step img img true true options.alpha
                (threshold_to_max_delta options.threshold)
                (bxIdx * blockSize, byIdx * blockSize,
                  min (bxIdx * blockSize + blockSize) img.width,
                  min (byIdx * blockSize + blockSize) img.height,
                  byIdx * ((img.width + blockSize - 1) / blockSize) + bxIdx) st2) st =
              st :=
          fun st byIdx => foldl_id _ _
            (fun st2 bxIdx => cold_step_mask_id img img options.alpha
              (threshold_to_max_delta options.threshold) _ st2) st
        rw [foldl_id _ _ hid, if_pos (show (true && true) = true from rfl), clear_out,
          if_pos hi, if_pos (show (true : Bool) = true from rfl)]
    · have hm2 : options.diffMask = false := Bool.eq_false_iff.mpr hm
      rw [hm2]
      by_cases ha : aliased = true
      · rw [if_pos ha]
        dsimp only
        rw [if_pos (show (true && !false) = true from rfl),
          if_neg (show ¬((true && false) = true) from by decide),
          fill_block_gray_out img options.alpha 0 0 0 img.width img.height hW
            (Nat.le_refl _) _ i,
          if_pos ⟨Nat.zero_le _, Nat.mod_lt _ hW, Nat.zero_le _, hy⟩,
          if_neg (show ¬((false : Bool) = true) from by decide)]
      · rw [if_neg ha]
        dsimp only
        rw [cold_pass_blocks, changed_blocks_self_nil,
          if_pos (show List.isEmpty ([] : List (Nat × Nat × Nat × Nat × Nat)) = true
            from rfl)]
        dsimp only
        rw [cold_pass_state,
          cold_fill_covers img options.alpha (threshold_to_max_delta options.threshold)
            blockSize hB _ i hi,
          if_neg (show ¬((false : Bool) = true) from by decide)]

/-- C6 witness: a concrete self-diff of the 2x2 image, both masked and
unmasked, with the output pixel 0 evaluated. -/
theorem c6_witness :
    ((diff imgW1 imgW1 true imgW1.data optsW false 8).1 =
      Except.ok (DiffResult.new 0 (imgW1.width * imgW1.height)) ∧
      (diff imgW1 imgW1 true imgW1.data optsW false 8).2.out 0 =
        pack_gray_pixel (compute_gray_f32_fast (imgW1.data 0)
          (optsW.alpha * (1 / 255)))) ∧
    (diff imgW1 imgW1 true imgW1.data optsWmask false 8).2.out 0 = 0 := by
  refine ⟨⟨(c6_self_diff_round_trip imgW1 true imgW1.data optsW false 8 (by decide)).1, ?_⟩, ?_⟩
  · have h := (c6_self_diff_round_trip imgW1 true imgW1.data optsW false 8
      (by decide)).2 rfl 0 (by decide)
    rw [if_neg (show ¬((optsW.diffMask : Bool) = true) from by decide)] at h
    exact h
  · have h := (c6_self_diff_round_trip imgW1 true imgW1.data optsWmask false 8
      (by decide)).2 rfl 0 (by decide)
    rw [if_pos (show (optsWmask.diffMask : Bool) = true from rfl)] at h
    exact h


/-- Trace counts accumulate additively over a fold whose every step adds
a known per-element count. -/
theorem foldl_traced_add {α : Type} (P : WriteSrc → Bool) (i : Nat)
    (f : DiffState → α → DiffState) (g : α → Nat) (l : List α) :
    ∀ (h : ∀ s a, a ∈ l →
      tracedCount P i (f s a).trace = g a + tracedCount P i s.trace)
    (s : DiffState),
    tracedCount P i (l.foldl f s).trace = (l.map g).sum + tracedCount P i s.trace := by
  induction l with
  | nil =>
    intro h s
    rw [List.foldl_nil, List.map_nil, List.sum_nil, Nat.zero_add]
  | cons a t ih =>
    intro h s
    rw [List.foldl_cons, ih (fun s2 b hb => h s2 b (List.mem_cons_of_mem a hb)) (f s a),
      h s a (List.mem_cons_self a t), List.map_cons, List.sum_cons]
    omega

/-- A range sum of an indicator pinned to one index collapses to the
indicator's remaining condition. -/
theorem sum_range_single (n m0 : Nat) (hm : m0 < n) (C : Prop) [Decidable C] :
    ((List.range n).map fun j => if j = m0 ∧ C then 1 else 0).sum =
      if C then 1 else 0 := by
  induction n with
  | zero => omega
  | succ k ih =>
    rw [List.range_succ, List.map_append, List.sum_append]
    simp only [List.map_cons, List.map_nil, List.sum_cons, List.sum_nil]
    by_cases hmk : m0 = k
    · subst hmk
      have hz : ∀ j ∈ List.range m0, (if j = m0 ∧ C then 1 else 0) = 0 := by
        intro j hj
        rw [if_neg]
        rintro ⟨h1, _⟩
        exact absurd h1 (Nat.ne_of_lt (List.mem_range.mp hj))
      rw [List.map_congr_left hz, sum_map_zero]
      by_cases hc : C
      · rw [if_pos hc, if_pos (show m0 = m0 ∧ C from ⟨rfl, hc⟩)]
        omega
      · rw [if_neg hc, if_neg (show ¬(m0 = m0 ∧ C) from fun h => hc h.2)]
        omega
    · rw [ih (by omega), if_neg (show ¬(k = m0 ∧ C) from fun h => hmk h.1.symm)]
      omega

/-- A pixel coordinate lies in grid block `bx` exactly when `bx` is its
block index. -/
theorem block_mem_iff (x W B bx : Nat) (hB : 0 < B) (hx : x < W) :
    (bx * B ≤ x ∧ x < min (bx * B + B) W) ↔ bx = x / B := by
  constructor
  · rintro ⟨h1, h2⟩
    have h3 : x < bx * B + B := lt_of_lt_of_le h2 (Nat.min_le_left _ _)
    symm
    exact Nat.div_eq_of_lt_le h1 (by rw [Nat.succ_mul]; exact h3)
  · rintro rfl
    refine ⟨Nat.div_mul_le_self _ _, Nat.lt_min.mpr ⟨?_, hx⟩⟩
    have hdm := Nat.div_add_mod x B
    have hmod := Nat.mod_lt x hB
    rw [Nat.mul_comm]
    omega

/-- Trace effect of one gray block fill at one pixel. -/
theorem fill_block_gray_traced (source : Image) (alpha : ℚ) (b sx sy ex ey : Nat)
    (hW : 0 < source.width) (hex : ex ≤ source.width) (P : WriteSrc → Bool)
    (s : DiffState) (i : Nat) :
    tracedCount P i (fill_block_gray source alpha b sx sy ex ey s).trace =
      (if sx ≤ i % source.width ∧ i % source.width < ex ∧
          sy ≤ i / source.width ∧ i / source.width < ey ∧
          P (WriteSrc.cold b) = true then 1 else 0) + tracedCount P i s.trace := by
  rw [fill_block_gray_eq, paint_rect_traced P _ _ _ _ _ _ _ _ hW hex]
  refine congrArg (fun t => t + tracedCount P i s.trace) (if_congr ?_ rfl rfl)
  constructor
  · rintro ⟨h1, h2, h3, h4, _, h6⟩
    exact ⟨h1, h2, h3, h4, h6⟩
  · rintro ⟨h1, h2, h3, h4, h6⟩
    exact ⟨h1, h2, h3, h4, rfl, h6⟩

/-- Trace effect of one cold-pass block visit at one pixel (with an
output buffer present). -/
theorem cold_step_traced (img1 img2 : Image) (diffMask : Bool) (alpha maxDelta : ℚ)
    (blk : Nat × Nat × Nat × Nat × Nat) (hW : 0 < img1.width)
    (hex : blk.2.2.1 ≤ img1.width) (P : WriteSrc → Bool) (st : DiffState) (i : Nat) :
    tracedCount P i (cold_step img1 img2 true diffMask alpha maxDelta blk st).trace =
      (if block_flag img1 img2 maxDelta blk = false ∧ (!diffMask) = true ∧
          blk.1 ≤ i % img1.width ∧ i % img1.width < blk.2.2.1 ∧
          blk.2.1 ≤ i / img1.width ∧ i / img1.width < blk.2.2.2.1 ∧
          P (WriteSrc.cold blk.2.2.2.2) = true then 1 else 0) +
        tracedCount P i st.trace := by
  unfold cold_step
  by_cases hf : block_flag img1 img2 maxDelta blk = true
  · rw [if_pos hf,
      if_neg (by rintro ⟨h1, _⟩; rw [hf] at h1; exact Bool.noConfusion h1),
      Nat.zero_add]
  · have hf2 : block_flag img1 img2 maxDelta blk = false := Bool.eq_false_iff.mpr hf
    rw [if_neg hf]
    by_cases hd : (!diffMask) = true
    · rw [if_pos (show (true && !diffMask) = true by rw [hd]; rfl),
        fill_block_gray_traced img1 alpha blk.2.2.2.2 blk.1 blk.2.1 blk.2.2.1
          blk.2.2.2.1 hW hex P st i]
      refine congrArg (fun t => t + tracedCount P i st.trace) (if_congr ?_ rfl rfl)
      constructor
      · rintro ⟨h1, h2, h3, h4, h5⟩
        exact ⟨hf2, hd, h1, h2, h3, h4, h5⟩
      · rintro ⟨_, _, h3, h4, h5, h6, h7⟩
        exact ⟨h3, h4, h5, h6, h7⟩
    · have hd2 : (!diffMask) = false := Bool.eq_false_iff.mpr hd
      rw [if_neg (show ¬((true && !diffMask) = true) by rw [hd2]; decide),
        if_neg (by rintro ⟨_, h2, _⟩; exact hd h2), Nat.zero_add]


/-- Trace effect of the whole cold pass at one pixel: at most the one
write of the pixel's containing block, issued exactly when that block is
unflagged and background drawing is on. -/
theorem cold_fold_traced (img1 img2 : Image) (diffMask : Bool) (alpha maxDelta : ℚ)
    (B : Nat) (hB : 0 < B) (P : WriteSrc → Bool) (i : Nat)
    (hi : i < img1.width * img1.height) (s : DiffState) :
    tracedCount P i
      (((List.range ((img1.height + B - 1) / B)).foldl
        (fun st byIdx => (List.range ((img1.width + B - 1) / B)).foldl
          (fun st bxIdx => cold_step img1 img2 true diffMask alpha maxDelta
            (bxIdx * B, byIdx * B, min (bxIdx * B + B) img1.width,
              min (byIdx * B + B) img1.height,
              byIdx * ((img1.width + B - 1) / B) + bxIdx) st) st) s)).trace =
      (if block_flag img1 img2 maxDelta
            (blk_tuple img1.width img1.height B ((img1.width + B - 1) / B)
              (i / img1.width / B) (i % img1.width / B)) = false ∧
          (!diffMask) = true ∧
          P (WriteSrc.cold (i / img1.width / B * ((img1.width + B - 1) / B) +
            i % img1.width / B)) = true then 1 else 0) +
      tracedCount P i s.trace := by
  have hW : 0 < img1.width := by
    rcases Nat.eq_zero_or_pos img1.width with h | h
    · rw [h, Nat.zero_mul] at hi
      omega
    · exact h
  have hx : i % img1.width < img1.width := Nat.mod_lt _ hW
  have hy : i / img1.width < img1.height := by
    rw [Nat.div_lt_iff_lt_mul hW]
    rw [Nat.mul_comm] at hi
    exact hi
  rw [foldl_traced_add P i _
    (fun byIdx => if byIdx = i / img1.width / B ∧
        (block_flag img1 img2 maxDelta
          (blk_tuple img1.width img1.height B ((img1.width + B - 1) / B)
            (i / img1.width / B) (i % img1.width / B)) = false ∧
          (!diffMask) = true ∧
          P (WriteSrc.cold (i / img1.width / B * ((img1.width + B - 1) / B) +
            i % img1.width / B)) = true) then 1 else 0)
    _ ?hrow s, sum_range_single _ _ (div_lt_ceil _ _ _ hB hy) _]
  case hrow =>
    intro st byIdx _
    dsimp only
    rw [foldl_traced_add P i _
      (fun bxIdx => if bxIdx = i % img1.width / B ∧
          (byIdx = i / img1.width / B ∧
            (block_flag img1 img2 maxDelta
              (blk_tuple img1.width img1.height B ((img1.width + B - 1) / B)
                (i / img1.width / B) (i % img1.width / B)) = false ∧
              (!diffMask) = true ∧
              P (WriteSrc.cold (i / img1.width / B * ((img1.width + B - 1) / B) +
                i % img1.width / B)) = true)) then 1 else 0)
      _ ?hcell st, sum_range_single _ _ (div_lt_ceil _ _ _ hB hx) _]
    case hcell =>
      intro st2 bxIdx _
      dsimp only
      rw [cold_step_traced img1 img2 diffMask alpha maxDelta _ hW
        (Nat.min_le_right _ _) P st2 i]
      refine congrArg (fun t => t + tracedCount P i st2.trace) (if_congr ?_ rfl rfl)
      constructor
      · rintro ⟨h1, h2, h3, h4, h5, h6, h7⟩
        have hbx : bxIdx = i % img1.width / B :=
          (block_mem_iff (i % img1.width) img1.width B bxIdx hB hx).mp ⟨h3, h4⟩
        have hby : byIdx = i / img1.width / B :=
          (block_mem_iff (i / img1.width) img1.height B byIdx hB hy).mp ⟨h5, h6⟩
        subst hbx
        subst hby
        exact ⟨rfl, rfl, h1, h2, h7⟩
      · rintro ⟨hbx, hby, h1, h2, h7⟩
        subst hbx
        subst hby
        refine ⟨h1, h2, ?_, ?_, ?_, ?_, h7⟩
        · exact ((block_mem_iff _ img1.width B _ hB hx).mpr rfl).1
        · exact ((block_mem_iff _ img1.width B _ hB hx).mpr rfl).2
        · exact ((block_mem_iff _ img1.height B _ hB hy).mpr rfl).1
        · exact ((block_mem_iff _ img1.height B _ hB hy).mpr rfl).2

/-- The state returned by the hot pass, as the fold of per-block
rectangle paints. -/
theorem hot_pass_state (A : HotArgs) (blocks : List (Nat × Nat × Nat × Nat × Nat))
    (s : DiffState) :
    (hot_pass A blocks s).2 =
      blocks.foldl (fun s blk =>
        paint_rect A.width blk.1 blk.2.1 blk.2.2.1 blk.2.2.2.1
          (hot_do_write A) (hot_val A) (WriteSrc.hot blk.2.2.2.2) s) s := by
  rw [hot_pass_split]

/-- Every member of the changed-block list is a flagged grid block. -/
theorem changed_mem_shape (img1 img2 : Image) (maxDelta : ℚ) (B bX bY : Nat)
    (blk : Nat × Nat × Nat × Nat × Nat)
    (hmem : blk ∈ changed_blocks_list img1 img2 maxDelta B bX bY) :
    ∃ j k, j < bY ∧ k < bX ∧
      blk = blk_tuple img1.width img1.height B bX j k ∧
      block_flag img1 img2 maxDelta blk = true := by
  unfold changed_blocks_list at hmem
  rcases List.mem_flatten.mp hmem with ⟨row, hrow, hblkrow⟩
  rcases List.mem_map.mp hrow with ⟨j, hj, rfl⟩
  rcases List.mem_flatten.mp hblkrow with ⟨cell, hcell, hblkcell⟩
  rcases List.mem_map.mp hcell with ⟨k, hk, rfl⟩
  by_cases hf : block_flag img1 img2 maxDelta
      (blk_tuple img1.width img1.height B bX j k) = true
  · rw [if_pos hf] at hblkcell
    rcases List.mem_singleton.mp hblkcell with rfl
    exact ⟨j, k, List.mem_range.mp hj, List.mem_range.mp hk, rfl, hf⟩
  · rw [if_neg hf] at hblkcell
    exact absurd hblkcell (List.not_mem_nil _)

/-- Summing over the flagged-only flattened grid equals the grid sum of
the flag-guarded values. -/
theorem sum_changed_if {β : Type} (c : Nat → Nat → Bool) (h : Nat → Nat → β)
    (F : β → Nat) (m n : Nat) :
    ((((List.range m).map fun j =>
        (((List.range n).map fun i2 =>
          if c j i2 = true then [h j i2] else []).flatten)).flatten).map F).sum =
    ((List.range m).map fun j => ((List.range n).map fun i2 =>
      if c j i2 = true then F (h j i2) else 0).sum).sum := by
  rw [sum_flatten_map, List.map_map]
  apply congrArg
  apply List.map_congr_left
  intro j _
  simp only [Function.comp]
  rw [sum_map_if_singleton (c j) (h j) F]


/-- Trace effect of the whole hot pass at one pixel: at most the one
write of the pixel's containing block, issued exactly when that block is
flagged and the hot pass writes the pixel. -/
theorem hot_traced_total (img1 img2 : Image) (options : DiffOptions) (B : Nat)
    (hB : 0 < B) (P : WriteSrc → Bool) (i : Nat)
    (hi : i < img1.width * img1.height) (s : DiffState) :
    tracedCount P i
      ((changed_blocks_list img1 img2 (threshold_to_max_delta options.threshold) B
          ((img1.width + B - 1) / B) ((img1.height + B - 1) / B)).foldl
        (fun st blk =>
          paint_rect (hot_args img1 img2 true options).width blk.1 blk.2.1
            blk.2.2.1 blk.2.2.2.1 (hot_do_write (hot_args img1 img2 true options))
            (hot_val (hot_args img1 img2 true options))
            (WriteSrc.hot blk.2.2.2.2) st) s).trace =
      (if block_flag img1 img2 (threshold_to_max_delta options.threshold)
            (blk_tuple img1.width img1.height B ((img1.width + B - 1) / B)
              (i / img1.width / B) (i % img1.width / B)) = true ∧
          hot_do_write (hot_args img1 img2 true options) (i % img1.width)
            (i / img1.width) = true ∧
          P (WriteSrc.hot (i / img1.width / B * ((img1.width + B - 1) / B) +
            i % img1.width / B)) = true then 1 else 0) +
      tracedCount P i s.trace := by
  have hW : 0 < img1.width := by
    rcases Nat.eq_zero_or_pos img1.width with h | h
    · rw [h, Nat.zero_mul] at hi
      omega
    · exact h
  have hx : i % img1.width < img1.width := Nat.mod_lt _ hW
  have hy : i / img1.width < img1.height := by
    rw [Nat.div_lt_iff_lt_mul hW]
    rw [Nat.mul_comm] at hi
    exact hi
  rw [foldl_traced_add P i _ (hot_blk_traced_ind img1 img2 options P i) _ ?hblk s]
  case hblk =>
    intro st blk hmem
    dsimp only
    rcases changed_mem_shape img1 img2 (threshold_to_max_delta options.threshold) B
      ((img1.width + B - 1) / B) ((img1.height + B - 1) / B) blk hmem with
      ⟨j, k, hj, hk, rfl, hf⟩
    exact paint_rect_traced P (hot_args img1 img2 true options).width _ _ _ _ _ _ _
      hW (Nat.min_le_right _ _) st i
  suffices hsum : ((changed_blocks_list img1 img2
      (threshold_to_max_delta options.threshold) B ((img1.width + B - 1) / B)
      ((img1.height + B - 1) / B)).map (hot_blk_traced_ind img1 img2 options P i)).sum =
      (if block_flag img1 img2 (threshold_to_max_delta options.threshold)
            (blk_tuple img1.width img1.height B ((img1.width + B - 1) / B)
              (i / img1.width / B) (i % img1.width / B)) = true ∧
          hot_do_write (hot_args img1 img2 true options) (i % img1.width)
            (i / img1.width) = true ∧
          P (WriteSrc.hot (i / img1.width / B * ((img1.width + B - 1) / B) +
            i % img1.width / B)) = true then 1 else 0) by
    rw [hsum]
  have h1 : ((changed_blocks_list img1 img2
      (threshold_to_max_delta options.threshold) B ((img1.width + B - 1) / B)
      ((img1.height + B - 1) / B)).map (hot_blk_traced_ind img1 img2 options P i)).sum =
      ((List.range ((img1.height + B - 1) / B)).map fun j =>
        ((List.range ((img1.width + B - 1) / B)).map fun k =>
          if block_flag img1 img2 (threshold_to_max_delta options.threshold)
              (blk_tuple img1.width img1.height B ((img1.width + B - 1) / B) j k) =
              true then
            hot_blk_traced_ind img1 img2 options P i
              (blk_tuple img1.width img1.height B ((img1.width + B - 1) / B) j k)
          else 0).sum).sum :=
    sum_changed_if _ _ (hot_blk_traced_ind img1 img2 options P i)
      ((img1.height + B - 1) / B) ((img1.width + B - 1) / B)
  rw [h1]
  have h2 : ∀ j ∈ List.range ((img1.height + B - 1) / B),
      ∀ k ∈ List.range ((img1.width + B - 1) / B),
      (if block_flag img1 img2 (threshold_to_max_delta options.threshold)
          (blk_tuple img1.width img1.height B ((img1.width + B - 1) / B) j k) =
          true then
        hot_blk_traced_ind img1 img2 options P i
          (blk_tuple img1.width img1.height B ((img1.width + B - 1) / B) j k)
      else 0) =
      (if k = i % img1.width / B ∧ (j = i / img1.width / B ∧
          (block_flag img1 img2 (threshold_to_max_delta options.threshold)
            (blk_tuple img1.width img1.height B ((img1.width + B - 1) / B)
              (i / img1.width / B) (i % img1.width / B)) = true ∧
          hot_do_write (hot_args img1 img2 true options) (i % img1.width)
            (i / img1.width) = true ∧
          P (WriteSrc.hot (i / img1.width / B * ((img1.width + B - 1) / B) +
            i % img1.width / B)) = true)) then 1 else 0) := by
    intro j _ k _
    by_cases hf : block_flag img1 img2 (threshold_to_max_delta options.threshold)
        (blk_tuple img1.width img1.height B ((img1.width + B - 1) / B) j k) = true
    · rw [if_pos hf]
      unfold hot_blk_traced_ind
      apply if_congr ?_ rfl rfl
      constructor
      · rintro ⟨h1a, h2a, h3a, h4a, h5a, h6a⟩
        have hbk : k = i % img1.width / B :=
          (block_mem_iff (i % img1.width) img1.width B k hB hx).mp ⟨h1a, h2a⟩
        have hbj : j = i / img1.width / B :=
          (block_mem_iff (i / img1.width) img1.height B j hB hy).mp ⟨h3a, h4a⟩
        subst hbk
        subst hbj
        exact ⟨rfl, rfl, hf, h5a, h6a⟩
      · rintro ⟨hbk, hbj, _, h5a, h6a⟩
        subst hbk
        subst hbj
        refine ⟨?_, ?_, ?_, ?_, h5a, h6a⟩
        · exact ((block_mem_iff _ img1.width B _ hB hx).mpr rfl).1
        · exact ((block_mem_iff _ img1.width B _ hB hx).mpr rfl).2
        · exact ((block_mem_iff _ img1.height B _ hB hy).mpr rfl).1
        · exact ((block_mem_iff _ img1.height B _ hB hy).mpr rfl).2
    · rw [if_neg hf, if_neg ?_]
      rintro ⟨hbk, hbj, hfc, -, -⟩
      subst hbk
      subst hbj
      exact hf hfc
  rw [List.map_congr_left (fun j hj => congrArg List.sum
    (List.map_congr_left (h2 j hj)))]
  rw [List.map_congr_left (fun j _ => sum_range_single
    ((img1.width + B - 1) / B) (i % img1.width / B) (div_lt_ceil _ _ _ hB hx) _)]
  rw [sum_range_single ((img1.height + B - 1) / B) (i / img1.width / B)
    (div_lt_ceil _ _ _ hB hy) _]


/-- Bounds of a raster pixel index. -/
theorem pix_bounds (W H i : Nat) (hi : i < W * H) :
    0 < W ∧ i % W < W ∧ i / W < H := by
  have hW : 0 < W := by
    rcases Nat.eq_zero_or_pos W with h | h
    · rw [h, Nat.zero_mul] at hi
      omega
    · exact h
  refine ⟨hW, Nat.mod_lt _ hW, ?_⟩
  rw [Nat.div_lt_iff_lt_mul hW]
  rw [Nat.mul_comm] at hi
  exact hi

/-- Identical data never exceeds the threshold. -/
theorem exceeds_self_false (img1 img2 : Image) (maxDelta : ℚ) (i : Nat)
    (hdata : img1.data = img2.data) :
    exceeds_at img1 img2 maxDelta i = false := by
  unfold exceeds_at
  rw [hdata]
  simp

/-- A pixel that exceeds the threshold flags its containing block. -/
theorem exceeds_imp_flag (img1 img2 : Image) (maxDelta : ℚ) (B : Nat) (hB : 0 < B)
    (i : Nat) (hi : i < img1.width * img1.height)
    (hex : exceeds_at img1 img2 maxDelta i = true) :
    block_flag img1 img2 maxDelta
      (blk_tuple img1.width img1.height B ((img1.width + B - 1) / B)
        (i / img1.width / B) (i % img1.width / B)) = true := by
  rcases pix_bounds img1.width img1.height i hi with ⟨hW, hx, hy⟩
  have hxmem := (block_mem_iff (i % img1.width) img1.width B
    (i % img1.width / B) hB hx).mpr rfl
  have hymem := (block_mem_iff (i / img1.width) img1.height B
    (i / img1.width / B) hB hy).mpr rfl
  unfold block_flag blk_tuple block_has_perceptual_diff_scalar
  dsimp only
  rw [List.any_eq_true]
  refine ⟨i / img1.width - i / img1.width / B * B, ?_, ?_⟩
  · rw [List.mem_range]
    omega
  · rw [List.any_eq_true]
    refine ⟨i % img1.width - i % img1.width / B * B, ?_, ?_⟩
    · rw [List.mem_range]
      omega
    · dsimp only
      have hsy : i / img1.width / B * B +
          (i / img1.width - i / img1.width / B * B) = i / img1.width := by
        omega
      have hsx : i % img1.width / B * B +
          (i % img1.width - i % img1.width / B * B) = i % img1.width := by
        omega
      rw [hsy, hsx]
      have hidx : i / img1.width * img1.width + i % img1.width = i := by
        rw [Nat.mul_comm]
        exact Nat.div_add_mod i img1.width
      rw [hidx]
      exact hex

/-- If the cold pass recorded no changed blocks, every grid block is
unflagged. -/
theorem changed_nil_flag (img1 img2 : Image) (maxDelta : ℚ) (B bX bY : Nat)
    (hnil : changed_blocks_list img1 img2 maxDelta B bX bY = [])
    (j k : Nat) (hj : j < bY) (hk : k < bX) :
    block_flag img1 img2 maxDelta
      (blk_tuple img1.width img1.height B bX j k) = false := by
  by_cases hf : block_flag img1 img2 maxDelta
      (blk_tuple img1.width img1.height B bX j k) = true
  · exfalso
    have hmem : blk_tuple img1.width img1.height B bX j k ∈
        changed_blocks_list img1 img2 maxDelta B bX bY := by
      unfold changed_blocks_list
      apply List.mem_flatten.mpr
      refine ⟨_, List.mem_map_of_mem _ (List.mem_range.mpr hj), ?_⟩
      apply List.mem_flatten.mpr
      refine ⟨_, List.mem_map_of_mem _ (List.mem_range.mpr hk), ?_⟩
      rw [if_pos hf]
      exact List.mem_singleton_self _
    rw [hnil] at hmem
    exact List.not_mem_nil _ hmem
  · exact Bool.eq_false_iff.mpr hf

/-- In mask mode the hot pass writes exactly the exceeding pixels. -/
theorem hot_do_write_mask (img1 img2 : Image) (options : DiffOptions)
    (hm : options.diffMask = true) (x y : Nat) :
    hot_do_write (hot_args img1 img2 true options) x y =
      exceeds_at img1 img2 (threshold_to_max_delta options.threshold)
        (y * img1.width + x) := by
  unfold hot_do_write hot_args exceeds_at
  dsimp only
  rw [hm]
  by_cases hpq : img1.data (y * img1.width + x) = img2.data (y * img1.width + x)
  · rw [if_pos hpq, hpq]
    simp
  · rw [if_neg hpq]
    by_cases hd : threshold_to_max_delta options.threshold <
        |color_delta_f32 (img1.data (y * img1.width + x))
          (img2.data (y * img1.width + x))|
    · rw [if_pos hd]
      symm
      rw [Bool.and_eq_true]
      exact ⟨bne_iff_ne.mpr hpq, decide_eq_true hd⟩
    · rw [if_neg hd]
      simp [decide_eq_false hd]
  
/-- In background-drawing mode the hot pass writes every visited pixel. -/
theorem hot_do_write_draw (img1 img2 : Image) (options : DiffOptions)
    (hm : options.diffMask = false) (x y : Nat) :
    hot_do_write (hot_args img1 img2 true options) x y = true := by
  unfold hot_do_write hot_args
  dsimp only
  rw [hm]
  split
  · rfl
  · split
    · rfl
    · rfl


/-- Trace of a mask-mode aliased run: the transparent clear only. -/
theorem diff_traced_mask_alias (img1 img2 : Image) (out0 : Nat → Nat)
    (options : DiffOptions) (blockSize : Nat)
    (hw : img1.width = img2.width) (hh : img1.height = img2.height)
    (hm : options.diffMask = true) (P : WriteSrc → Bool) (i : Nat)
    (hi : i < img1.width * img1.height) :
    tracedCount P i (diff img1 img2 true out0 options true blockSize).2.trace =
      (if P WriteSrc.clear = true then 1 else 0) := by
  unfold diff
  rw [if_neg (by push_neg; exact ⟨hw, hh⟩),
    if_pos (show (true : Bool) = true from rfl)]
  dsimp only
  rw [hm]
  rw [if_neg (show ¬((true && !true) = true) from by decide),
    if_pos (show (true && true) = true from rfl), clear_traced P _ _ i]
  rw [show tracedCount P i (DiffState.mk out0 []).trace = 0 from rfl]
  rw [show (if i < img1.width * img1.height ∧ P WriteSrc.clear = true then 1 else 0) =
      (if P WriteSrc.clear = true then 1 else 0)
    from if_congr ⟨fun h => h.2, fun h => ⟨hi, h⟩⟩ rfl rfl]
  omega

/-- Trace of a draw-mode aliased run: the whole-image gray fill only. -/
theorem diff_traced_draw_alias (img1 img2 : Image) (out0 : Nat → Nat)
    (options : DiffOptions) (blockSize : Nat)
    (hw : img1.width = img2.width) (hh : img1.height = img2.height)
    (hm : options.diffMask = false) (P : WriteSrc → Bool) (i : Nat)
    (hi : i < img1.width * img1.height) :
    tracedCount P i (diff img1 img2 true out0 options true blockSize).2.trace =
      (if P (WriteSrc.cold 0) = true then 1 else 0) := by
  rcases pix_bounds img1.width img1.height i hi with ⟨hW, hx, hy⟩
  unfold diff
  rw [if_neg (by push_neg; exact ⟨hw, hh⟩),
    if_pos (show (true : Bool) = true from rfl)]
  dsimp only
  rw [hm]
  rw [if_pos (show (true && !false) = true from rfl),
    if_neg (show ¬((true && false) = true) from by decide),
    fill_block_gray_traced img1 options.alpha 0 0 0 img1.width img1.height hW
      (Nat.le_refl _) P _ i]
  rw [show tracedCount P i (DiffState.mk out0 []).trace = 0 from rfl]
  rw [show (if 0 ≤ i % img1.width ∧ i % img1.width < img1.width ∧
        0 ≤ i / img1.width ∧ i / img1.width < img1.height ∧
        P (WriteSrc.cold 0) = true then 1 else 0) =
      (if P (WriteSrc.cold 0) = true then 1 else 0)
    from if_congr ⟨fun h => h.2.2.2.2, fun h => ⟨Nat.zero_le _, hx, Nat.zero_le _, hy, h⟩⟩
      rfl rfl]
  omega

/-- Trace of a mask-mode non-aliased run: the clear plus the hot marker
write of the pixel's containing block, when flagged and written. -/
theorem diff_traced_mask (img1 img2 : Image) (out0 : Nat → Nat)
    (options : DiffOptions) (blockSize : Nat)
    (hw : img1.width = img2.width) (hh : img1.height = img2.height)
    (hB : 0 < blockSize) (hm : options.diffMask = true) (P : WriteSrc → Bool)
    (i : Nat) (hi : i < img1.width * img1.height) :
    tracedCount P i (diff img1 img2 true out0 options false blockSize).2.trace =
      (if P WriteSrc.clear = true then 1 else 0) +
      (if block_flag img1 img2 (threshold_to_max_delta options.threshold)
            (blk_tuple img1.width img1.height blockSize
              ((img1.width + blockSize - 1) / blockSize)
              (i / img1.width / blockSize) (i % img1.width / blockSize)) = true ∧
          hot_do_write (hot_args img1 img2 true options) (i % img1.width)
            (i / img1.width) = true ∧
          P (WriteSrc.hot (i / img1.width / blockSize *
            ((img1.width + blockSize - 1) / blockSize) +
            i % img1.width / blockSize)) = true then 1 else 0) := by
  rcases pix_bounds img1.width img1.height i hi with ⟨hW, hx, hy⟩
  unfold diff
  rw [if_neg (by push_neg; exact ⟨hw, hh⟩),
    if_neg (show ¬((false : Bool) = true) from by decide)]
  dsimp only
  rw [hm, cold_pass_blocks]
  by_cases he : (changed_blocks_list img1 img2
      (threshold_to_max_delta options.threshold) blockSize
      ((img1.width + blockSize - 1) / blockSize)
      ((img1.height + blockSize - 1) / blockSize)).isEmpty = true
  · rw [if_pos he]
    dsimp only
    rw [cold_pass_state,
      cold_fold_traced img1 img2 true options.alpha
        (threshold_to_max_delta options.threshold) blockSize hB P i hi _,
      if_pos (show (true && true) = true from rfl), clear_traced P _ _ i]
    rw [show tracedCount P i (DiffState.mk out0 []).trace = 0 from rfl]
    have hflag := changed_nil_flag img1 img2 (threshold_to_max_delta options.threshold)
      blockSize ((img1.width + blockSize - 1) / blockSize)
      ((img1.height + blockSize - 1) / blockSize) (List.isEmpty_iff.mp he)
      (i / img1.width / blockSize) (i % img1.width / blockSize)
      (div_lt_ceil _ _ _ hB hy) (div_lt_ceil _ _ _ hB hx)
    rw [if_neg (show ¬(block_flag img1 img2 (threshold_to_max_delta options.threshold)
        (blk_tuple img1.width img1.height blockSize
          ((img1.width + blockSize - 1) / blockSize)
          (i / img1.width / blockSize) (i % img1.width / blockSize)) = false ∧
        (!true) = true ∧
        P (WriteSrc.cold (i / img1.width / blockSize *
          ((img1.width + blockSize - 1) / blockSize) +
          i % img1.width / blockSize)) = true)
      from by rintro ⟨-, h2, -⟩; exact absurd h2 (by decide)),
      if_neg (show ¬(block_flag img1 img2 (threshold_to_max_delta options.threshold)
        (blk_tuple img1.width img1.height blockSize
          ((img1.width + blockSize - 1) / blockSize)
          (i / img1.width / blockSize) (i % img1.width / blockSize)) = true ∧
        hot_do_write (hot_args img1 img2 true options) (i % img1.width)
          (i / img1.width) = true ∧
        P (WriteSrc.hot (i / img1.width / blockSize *
          ((img1.width + blockSize - 1) / blockSize) +
          i % img1.width / blockSize)) = true)
      from by rintro ⟨h1c, -⟩; rw [hflag] at h1c; exact Bool.noConfusion h1c),
      show (if i < img1.width * img1.height ∧ P WriteSrc.clear = true then 1 else 0) =
        (if P WriteSrc.clear = true then 1 else 0)
      from if_congr ⟨fun h => h.2, fun h => ⟨hi, h⟩⟩ rfl rfl]
    omega
  · rw [if_neg he]
    dsimp only
    rw [hot_pass_state,
      hot_traced_total img1 img2 options blockSize hB P i hi _,
      cold_pass_state,
      cold_fold_traced img1 img2 true options.alpha
        (threshold_to_max_delta options.threshold) blockSize hB P i hi _,
      if_pos (show (true && true) = true from rfl), clear_traced P _ _ i]
    rw [show tracedCount P i (DiffState.mk out0 []).trace = 0 from rfl]
    rw [if_neg (show ¬(block_flag img1 img2 (threshold_to_max_delta options.threshold)
        (blk_tuple img1.width img1.height blockSize
          ((img1.width + blockSize - 1) / blockSize)
          (i / img1.width / blockSize) (i % img1.width / blockSize)) = false ∧
        (!true) = true ∧
        P (WriteSrc.cold (i / img1.width / blockSize *
          ((img1.width + blockSize - 1) / blockSize) +
          i % img1.width / blockSize)) = true)
      from by rintro ⟨-, h2, -⟩; exact absurd h2 (by decide)),
      show (if i < img1.width * img1.height ∧ P WriteSrc.clear = true then 1 else 0) =
        (if P WriteSrc.clear = true then 1 else 0)
      from if_congr ⟨fun h => h.2, fun h => ⟨hi, h⟩⟩ rfl rfl]
    omega

/-- Trace of a draw-mode non-aliased run: exactly one block write — the
cold gray fill when the containing block is unflagged, the hot-pass paint
when it is flagged. -/
theorem diff_traced_draw (img1 img2 : Image) (out0 : Nat → Nat)
    (options : DiffOptions) (blockSize : Nat)
    (hw : img1.width = img2.width) (hh : img1.height = img2.height)
    (hB : 0 < blockSize) (hm : options.diffMask = false) (P : WriteSrc → Bool)
    (i : Nat) (hi : i < img1.width * img1.height) :
    tracedCount P i (diff img1 img2 true out0 options false blockSize).2.trace =
      (if block_flag img1 img2 (threshold_to_max_delta options.threshold)
            (blk_tuple img1.width img1.height blockSize
              ((img1.width + blockSize - 1) / blockSize)
              (i / img1.width / blockSize) (i % img1.width / blockSize)) = false ∧
          P (WriteSrc.cold (i / img1.width / blockSize *
            ((img1.width + blockSize - 1) / blockSize) +
            i % img1.width / blockSize)) = true then 1 else 0) +
      (if block_flag img1 img2 (threshold_to_max_delta options.threshold)
            (blk_tuple img1.width img1.height blockSize
              ((img1.width + blockSize - 1) / blockSize)
              (i / img1.width / blockSize) (i % img1.width / blockSize)) = true ∧
          hot_do_write (hot_args img1 img2 true options) (i % img1.width)
            (i / img1.width) = true ∧
          P (WriteSrc.hot (i / img1.width / blockSize *
            ((img1.width + blockSize - 1) / blockSize) +
            i % img1.width / blockSize)) = true then 1 else 0) := by
  rcases pix_bounds img1.width img1.height i hi with ⟨hW, hx, hy⟩
  unfold diff
  rw [if_neg (by push_neg; exact ⟨hw, hh⟩),
    if_neg (show ¬((false : Bool) = true) from by decide)]
  dsimp only
  rw [hm, cold_pass_blocks]
  by_cases he : (changed_blocks_list img1 img2
      (threshold_to_max_delta options.threshold) blockSize
      ((img1.width + blockSize - 1) / blockSize)
      ((img1.height + blockSize - 1) / blockSize)).isEmpty = true
  · rw [if_pos he]
    dsimp only
    rw [cold_pass_state,
      cold_fold_traced img1 img2 false options.alpha
        (threshold_to_max_delta options.threshold) blockSize hB P i hi _,
      if_neg (show ¬((true && false) = true) from by decide)]
    rw [show tracedCount P i (DiffState.mk out0 []).trace = 0 from rfl]
    have hflag := changed_nil_flag img1 img2 (threshold_to_max_delta options.threshold)
      blockSize ((img1.width + blockSize - 1) / blockSize)
      ((img1.height + blockSize - 1) / blockSize) (List.isEmpty_iff.mp he)
      (i / img1.width / blockSize) (i % img1.width / blockSize)
      (div_lt_ceil _ _ _ hB hy) (div_lt_ceil _ _ _ hB hx)
    rw [if_neg (show ¬(block_flag img1 img2 (threshold_to_max_delta options.threshold)
        (blk_tuple img1.width img1.height blockSize
          ((img1.width + blockSize - 1) / blockSize)
          (i / img1.width / blockSize) (i % img1.width / blockSize)) = true ∧
        hot_do_write (hot_args img1 img2 true options) (i % img1.width)
          (i / img1.width) = true ∧
        P (WriteSrc.hot (i / img1.width / blockSize *
          ((img1.width + blockSize - 1) / blockSize) +
          i % img1.width / blockSize)) = true)
      from by rintro ⟨h1c, -⟩; rw [hflag] at h1c; exact Bool.noConfusion h1c),
      show (if block_flag img1 img2 (threshold_to_max_delta options.threshold)
            (blk_tuple img1.width img1.height blockSize
              ((img1.width + blockSize - 1) / blockSize)
              (i / img1.width / blockSize) (i % img1.width / blockSize)) = false ∧
          (!false) = true ∧
          P (WriteSrc.cold (i / img1.width / blockSize *
            ((img1.width + blockSize - 1) / blockSize) +
            i % img1.width / blockSize)) = true then 1 else 0) =
        (if block_flag img1 img2 (threshold_to_max_delta options.threshold)
            (blk_tuple img1.width img1.height blockSize
              ((img1.width + blockSize - 1) / blockSize)
              (i / img1.width / blockSize) (i % img1.width / blockSize)) = false ∧
          P (WriteSrc.cold (i / img1.width / blockSize *
            ((img1.width + blockSize - 1) / blockSize) +
            i % img1.width / blockSize)) = true then 1 else 0)
      from if_congr ⟨fun h => ⟨h.1, h.2.2⟩, fun h => ⟨h.1, by decide, h.2⟩⟩ rfl rfl]
  · rw [if_neg he]
    dsimp only
    rw [hot_pass_state,
      hot_traced_total img1 img2 options blockSize hB P i hi _,
      cold_pass_state,
      cold_fold_traced img1 img2 false options.alpha
        (threshold_to_max_delta options.threshold) blockSize hB P i hi _,
      if_neg (show ¬((true && false) = true) from by decide)]
    rw [show tracedCount P i (DiffState.mk out0 []).trace = 0 from rfl]
    rw [show (if block_flag img1 img2 (threshold_to_max_delta options.threshold)
            (blk_tuple img1.width img1.height blockSize
              ((img1.width + blockSize - 1) / blockSize)
              (i / img1.width / blockSize) (i % img1.width / blockSize)) = false ∧
          (!false) = true ∧
          P (WriteSrc.cold (i / img1.width / blockSize *
            ((img1.width + blockSize - 1) / blockSize) +
            i % img1.width / blockSize)) = true then 1 else 0) =
        (if block_flag img1 img2 (threshold_to_max_delta options.threshold)
            (blk_tuple img1.width img1.height blockSize
              ((img1.width + blockSize - 1) / blockSize)
              (i / img1.width / blockSize) (i % img1.width / blockSize)) = false ∧
          P (WriteSrc.cold (i / img1.width / blockSize *
            ((img1.width + blockSize - 1) / blockSize) +
            i % img1.width / blockSize)) = true then 1 else 0)
      from if_congr ⟨fun h => ⟨h.1, h.2.2⟩, fun h => ⟨h.1, by decide, h.2⟩⟩ rfl rfl]
    omega


/-- C4 (amended): with an output buffer, every pixel is written at least
once and never by two different blocks, and it is written exactly once
unless `diff_mask` is on — in mask mode an exceeding pixel is written
twice (the transparent clear plus the hot marker), refuting the spec's
"exactly once".  Precisely: the write count is 1 when `diff_mask` is off,
and `1 + [pixel exceeds max_delta]` when it is on; block-sourced writes
never exceed 1. -/
theorem c4_write_discipline (img1 img2 : Image) (out0 : Nat → Nat)
    (options : DiffOptions) (aliased : Bool) (blockSize : Nat)
    (hw : img1.width = img2.width) (hh : img1.height = img2.height)
    (hB : 0 < blockSize) (hal : aliased = true → img1.data = img2.data)
    (i : Nat) (hi : i < img1.width * img1.height) :
    writesTo i (diff img1 img2 true out0 options aliased blockSize).2.trace =
      (if options.diffMask then
        1 + (if exceeds_at img1 img2 (threshold_to_max_delta options.threshold) i =
          true then 1 else 0)
      else 1) ∧
    blockWritesTo i (diff img1 img2 true out0 options aliased blockSize).2.trace ≤ 1 := by
  have hieq : i / img1.width * img1.width + i % img1.width = i := by
    rw [Nat.mul_comm]
    exact Nat.div_add_mod i img1.width
  constructor
  · unfold writesTo
    by_cases hm : options.diffMask = true
    · rw [hm, if_pos (show (true : Bool) = true from rfl)]
      by_cases ha : aliased = true
      · subst ha
        rw [diff_traced_mask_alias img1 img2 out0 options blockSize hw hh hm _ i hi,
          if_pos (show ((fun _ : WriteSrc => true) WriteSrc.clear) = true from rfl),
          exceeds_self_false img1 img2 _ i (hal rfl),
          if_neg (show ¬((false : Bool) = true) from by decide)]
      · have ha2 : aliased = false := Bool.eq_false_iff.mpr ha
        subst ha2
        rw [diff_traced_mask img1 img2 out0 options blockSize hw hh hB hm _ i hi,
          if_pos (show ((fun _ : WriteSrc => true) WriteSrc.clear) = true from rfl)]
        have hdweq : hot_do_write (hot_args img1 img2 true options) (i % img1.width)
            (i / img1.width) =
            exceeds_at img1 img2 (threshold_to_max_delta options.threshold) i := by
          have h := hot_do_write_mask img1 img2 options hm (i % img1.width)
            (i / img1.width)
          rwa [hieq] at h
        rw [show (if block_flag img1 img2 (threshold_to_max_delta options.threshold)
              (blk_tuple img1.width img1.height blockSize
                ((img1.width + blockSize - 1) / blockSize)
                (i / img1.width / blockSize) (i % img1.width / blockSize)) = true ∧
            hot_do_write (hot_args img1 img2 true options) (i % img1.width)
              (i / img1.width) = true ∧
            (fun _ : WriteSrc => true) (WriteSrc.hot (i / img1.width / blockSize *
              ((img1.width + blockSize - 1) / blockSize) +
              i % img1.width / blockSize)) = true then 1 else 0) =
          (if exceeds_at img1 img2 (threshold_to_max_delta options.threshold) i =
            true then 1 else 0)
        from if_congr ⟨fun h => by rw [← hdweq]; exact h.2.1,
          fun hexx => ⟨exceeds_imp_flag img1 img2 _ blockSize hB i hi hexx,
            by rw [hdweq]; exact hexx, rfl⟩⟩ rfl rfl]
    · have hm2 : options.diffMask = false := Bool.eq_false_iff.mpr hm
      rw [hm2, if_neg (show ¬((false : Bool) = true) from by decide)]
      by_cases ha : aliased = true
      · subst ha
        rw [diff_traced_draw_alias img1 img2 out0 options blockSize hw hh hm2 _ i hi,
          if_pos (show ((fun _ : WriteSrc => true) (WriteSrc.cold 0)) = true from rfl)]
      · have ha2 : aliased = false := Bool.eq_false_iff.mpr ha
        subst ha2
        rw [diff_traced_draw img1 img2 out0 options blockSize hw hh hB hm2 _ i hi]
        rcases Bool.dichotomy (block_flag img1 img2
            (threshold_to_max_delta options.threshold)
            (blk_tuple img1.width img1.height blockSize
              ((img1.width + blockSize - 1) / blockSize)
              (i / img1.width / blockSize) (i % img1.width / blockSize))) with hfl | hfl
        · rw [if_pos (show block_flag img1 img2
                (threshold_to_max_delta options.threshold)
                (blk_tuple img1.width img1.height blockSize
                  ((img1.width + blockSize - 1) / blockSize)
                  (i / img1.width / blockSize) (i % img1.width / blockSize)) = false ∧
              (fun _ : WriteSrc => true) (WriteSrc.cold (i / img1.width / blockSize *
                ((img1.width + blockSize - 1) / blockSize) +
                i % img1.width / blockSize)) = true from ⟨hfl, rfl⟩),
            if_neg (show ¬(block_flag img1 img2
                (threshold_to_max_delta options.threshold)
                (blk_tuple img1.width img1.height blockSize
                  ((img1.width + blockSize - 1) / blockSize)
                  (i / img1.width / blockSize) (i % img1.width / blockSize)) = true ∧
              hot_do_write (hot_args img1 img2 true options) (i % img1.width)
                (i / img1.width) = true ∧
              (fun _ : WriteSrc => true) (WriteSrc.hot (i / img1.width / blockSize *
                ((img1.width + blockSize - 1) / blockSize) +
                i % img1.width / blockSize)) = true)
            from by rintro ⟨h1c, -⟩; rw [hfl] at h1c; exact Bool.noConfusion h1c)]
        · rw [if_neg (show ¬(block_flag img1 img2
                (threshold_to_max_delta options.threshold)
                (blk_tuple img1.width img1.height blockSize
                  ((img1.width + blockSize - 1) / blockSize)
                  (i / img1.width / blockSize) (i % img1.width / blockSize)) = false ∧
              (fun _ : WriteSrc => true) (WriteSrc.cold (i / img1.width / blockSize *
                ((img1.width + blockSize - 1) / blockSize) +
                i % img1.width / blockSize)) = true)
            from by rintro ⟨h1c, -⟩; rw [hfl] at h1c; exact Bool.noConfusion h1c),
            if_pos (show block_flag img1 img2
                (threshold_to_max_delta options.threshold)
                (blk_tuple img1.width img1.height blockSize
                  ((img1.width + blockSize - 1) / blockSize)
                  (i / img1.width / blockSize) (i % img1.width / blockSize)) = true ∧
              hot_do_write (hot_args img1 img2 true options) (i % img1.width)
                (i / img1.width) = true ∧
              (fun _ : WriteSrc => true) (WriteSrc.hot (i / img1.width / blockSize *
                ((img1.width + blockSize - 1) / blockSize) +
                i % img1.width / blockSize)) = true
            from ⟨hfl, hot_do_write_draw img1 img2 options hm2 _ _, rfl⟩)]
  · unfold blockWritesTo
    by_cases hm : options.diffMask = true
    · by_cases ha : aliased = true
      · subst ha
        rw [diff_traced_mask_alias img1 img2 out0 options blockSize hw hh hm _ i hi]
        split <;> omega
      · have ha2 : aliased = false := Bool.eq_false_iff.mpr ha
        subst ha2
        rw [diff_traced_mask img1 img2 out0 options blockSize hw hh hB hm _ i hi,
          if_neg (show ¬((fun src => !(src == WriteSrc.clear)) WriteSrc.clear = true)
            from by decide)]
        split <;> omega
    · have hm2 : options.diffMask = false := Bool.eq_false_iff.mpr hm
      by_cases ha : aliased = true
      · subst ha
        rw [diff_traced_draw_alias img1 img2 out0 options blockSize hw hh hm2 _ i hi]
        split <;> omega
      · have ha2 : aliased = false := Bool.eq_false_iff.mpr ha
        subst ha2
        rw [diff_traced_draw img1 img2 out0 options blockSize hw hh hB hm2 _ i hi]
        rcases Bool.dichotomy (block_flag img1 img2
            (threshold_to_max_delta options.threshold)
            (blk_tuple img1.width img1.height blockSize
              ((img1.width + blockSize - 1) / blockSize)
              (i / img1.width / blockSize) (i % img1.width / blockSize))) with hfl | hfl
        · rw [if_neg (show ¬(block_flag img1 img2
                (threshold_to_max_delta options.threshold)
                (blk_tuple img1.width img1.height blockSize
                  ((img1.width + blockSize - 1) / blockSize)
                  (i / img1.width / blockSize) (i % img1.width / blockSize)) = true ∧
              hot_do_write (hot_args img1 img2 true options) (i % img1.width)
                (i / img1.width) = true ∧
              (fun src => !(src == WriteSrc.clear))
                (WriteSrc.hot (i / img1.width / blockSize *
                  ((img1.width + blockSize - 1) / blockSize) +
                  i % img1.width / blockSize)) = true)
            from by rintro ⟨h1c, -⟩; rw [hfl] at h1c; exact Bool.noConfusion h1c)]
          split <;> omega
        · rw [if_neg (show ¬(block_flag img1 img2
                (threshold_to_max_delta options.threshold)
                (blk_tuple img1.width img1.height blockSize
                  ((img1.width + blockSize - 1) / blockSize)
                  (i / img1.width / blockSize) (i % img1.width / blockSize)) = false ∧
              (fun src => !(src == WriteSrc.clear))
                (WriteSrc.cold (i / img1.width / blockSize *
                  ((img1.width + blockSize - 1) / blockSize) +
                  i % img1.width / blockSize)) = true)
            from by rintro ⟨h1c, -⟩; rw [hfl] at h1c; exact Bool.noConfusion h1c)]
          split <;> omega

unseal Rat.mul Rat.add Rat.sub Rat.inv Rat.ofScientific in
/-- C4 counterexample: a 1x1 black/white diff in mask mode writes pixel 0
twice — the transparent clear and then the hot diff marker — so "exactly
once" fails. -/
theorem c4_counterexample :
    writesTo 0 (diff imgB1 imgB2 true imgB1.data optsWmask false 8).2.trace = 2 := by
  decide

unseal Rat.mul Rat.add Rat.sub Rat.inv Rat.ofScientific in
/-- C4 witness: the amended count formula evaluated on the same 1x1 run. -/
theorem c4_witness :
    writesTo 0 (diff imgB1 imgB2 true imgB1.data optsWmask false 8).2.trace =
      (if optsWmask.diffMask then
        1 + (if exceeds_at imgB1 imgB2 (threshold_to_max_delta optsWmask.threshold) 0 =
          true then 1 else 0)
      else 1) ∧
    blockWritesTo 0 (diff imgB1 imgB2 true imgB1.data optsWmask false 8).2.trace ≤ 1 :=
  c4_write_discipline imgB1 imgB2 imgB1.data optsWmask false 8 rfl rfl (by decide)
    (fun h => Bool.noConfusion h) 0 (by decide)

end BlazeDiff
